import Mathlib

/-!
Verification of the LabHelpr statistical decision and computation engine.

The embedding translates the statistical core of the repository:
  - `src/app/statistical-analysis/page.tsx` (namespace `StatPage`)
  - `src/lib/stats/descriptive.ts` (namespace `StatLib`)
  - the numeric helpers the code imports from the `simple-statistics`
    library (namespace `SimpleStats`).

JavaScript numbers are modelled as exact rationals (`ℚ`).  The
transcendental floating-point functions the code calls (`Math.sqrt`,
`Math.log`, `jStat` distribution functions, the `ml-levenberg-marquardt`
fitter, ...) have no exact rational definition; they are supplied as an
explicit environment record (`Env`), and theorems that depend on their
values only assume properties the real functions satisfy (for example
that `Math.sqrt` of a nonnegative number is nonnegative).  Everything
else — guards, branching, sorting, ranking, sums, means, variances,
quantiles, counts — is embedded exactly.

JavaScript `Array.prototype.sort` with a numeric comparator is a stable
sort; it is modelled by `List.insertionSort`, which is also stable, and a
stable sort by a total preorder is unique, so the two agree.
-/

namespace LabHelpr

/-- Runtime numeric environment: the floating-point library functions used
by the source (`Math.sqrt`, `Math.log`, `Math.log2`, `Math.log10`,
`Math.asin`, `jStat.normal.cdf`/`inv`, `jStat.studentt.cdf`/`inv`,
`jStat.centralF.cdf`, `jStat.chisquare.cdf`, and the
`ml-levenberg-marquardt` 4PL core together with its bootstrap), passed as
parameters of the shallow embedding. -/
structure Env where
  sqrt : ℚ → ℚ
  log : ℚ → ℚ
  log2 : ℚ → ℚ
  log10 : ℚ → ℚ
  asin : ℚ → ℚ
  normCdf : ℚ → ℚ
  normInv : ℚ → ℚ
  tCdf : ℚ → ℚ → ℚ
  tInv : ℚ → ℚ → ℚ
  fCdf : ℚ → ℚ → ℚ → ℚ
  chisqCdf : ℚ → ℚ → ℚ
  lm4pl : List ℚ → List ℚ → Option ℚ → Option ℚ → Bool → (ℚ × ℚ × ℚ × ℚ × (ℚ × ℚ) × ℕ × List ℕ)

/-- A fixed concrete environment used to instantiate witnesses and
counterexamples on concrete inputs. -/
def env₀ : Env where
  sqrt := id
  log := id
  log2 := id
  log10 := id
  asin := id
  normCdf := fun _ => 0
  normInv := id
  tCdf := fun _ _ => 0
  tInv := fun _ _ => 1
  fCdf := fun _ _ _ => 0
  chisqCdf := fun _ _ => 0
  lm4pl := fun _ _ _ _ _ => (0, 0, 0, 0, (0, 0), 0, [])

namespace SimpleStats

/-- `mean` from the `simple-statistics` library: arithmetic mean
(callers never pass the empty list). -/
def mean (l : List ℚ) : ℚ := l.sum / l.length

/-- `variance` from `simple-statistics`: population variance, the mean of
squared deviations (divides by `n`). -/
def variance (l : List ℚ) : ℚ :=
  (l.map (fun v => (v - mean l) ^ 2)).sum / l.length

/-- `sampleVariance` from `simple-statistics`: divides by `n − 1`
(callers guard `n > 1`). -/
def sampleVariance (l : List ℚ) : ℚ :=
  (l.map (fun v => (v - mean l) ^ 2)).sum / ((l.length : ℚ) - 1)

/-- `quantileSorted` from `simple-statistics` on an already-sorted list:
returns the endpoint at `p = 0` / `p = 1`, the element at `⌈n·p⌉ − 1`
when `n·p` is not an integer, the midpoint of the two straddling
elements when `n·p` is an integer and `n` is even, and the element at
`n·p` otherwise.  The library throws on an empty input; every call site
in the repository guards non-emptiness, so out-of-range indices default
to `0` here. -/
def quantileSorted (x : List ℚ) (p : ℚ) : ℚ :=
  let n := x.length
  let idx : ℚ := (n : ℚ) * p
  if p = 1 then x.getD (n - 1) 0
  else if p = 0 then x.getD 0 0
  else if idx.den ≠ 1 then x.getD (⌈idx⌉.toNat - 1) 0
  else if n % 2 = 0 then (x.getD (idx.num.toNat - 1) 0 + x.getD idx.num.toNat 0) / 2
  else x.getD idx.num.toNat 0

/-- `median` from `simple-statistics`: sorts a copy and takes the
`0.5` quantile. -/
def median (l : List ℚ) : ℚ :=
  quantileSorted (l.insertionSort (· ≤ ·)) (1 / 2)

end SimpleStats

namespace StatPage

/-- The `PAdjustMethod` union type of `page.tsx`. -/
inductive PAdjustMethod
  | none
  | bonferroni
  | holm
  | bh
deriving DecidableEq

/-- `adjustPValues` from `page.tsx`.  `bonferroni` maps each `p` to
`min(1, p·m)`.  `holm` sorts `(p, index)` pairs ascending by `p`
(stable), writes `min(1, (m − sortedPos)·p)` back at the original index,
and then walks the sorted positions from the largest down, enforcing a
running maximum — exactly as the source loop does.  `bh` walks the
sorted positions from the largest down with a running minimum of
`(m/(sortedPos+1))·p`, writing `min(1, runningMin)` at the original
index. -/
def adjustPValues (values : List ℚ) (method : PAdjustMethod) : List ℚ :=
  let m := values.length
  if m = 0 ∨ method = PAdjustMethod.none then values
  else
    match method with
    | .none => values
    | .bonferroni => values.map (fun p => min 1 (p * (m : ℚ)))
    | .holm =>
      let sorted := (values.enum.map (fun pr => (pr.2, pr.1))).insertionSort
        (fun a b => a.1 ≤ b.1)
      let adjusted0 := sorted.enum.foldl
        (fun acc pr => acc.set pr.2.2 (min 1 (((m : ℚ) - (pr.1 : ℚ)) * pr.2.1)))
        (List.replicate m 1)
      (sorted.reverse.foldl
        (fun st pr =>
          let cum := max st.1 (st.2.getD pr.2 1)
          (cum, st.2.set pr.2 cum))
        ((0 : ℚ), adjusted0)).2
    | .bh =>
      let sorted := (values.enum.map (fun pr => (pr.2, pr.1))).insertionSort
        (fun a b => a.1 ≤ b.1)
      (sorted.enum.reverse.foldl
        (fun st pr =>
          let adj := ((m : ℚ) / ((pr.1 : ℚ) + 1)) * pr.2.1
          let minAdj := min st.1 adj
          (minAdj, st.2.set pr.2.2 (min 1 minAdj)))
        ((1 : ℚ), List.replicate m 1)).2

/-- The tied-rank assignment loop shared verbatim by `mannWhitneyU` and
`kruskalWallis` in `page.tsx`: walk the sorted value list, find each
maximal run of values equal to the first element of the run, and assign
member of the run the rank `(i + j + 1)/2`, where `i` is the 0-based
index of the first element of the run and `j` is one past its last. -/
def assignTieRanksFrom (i : ℕ) : List ℚ → List ℚ
  | [] => []
  | v :: rest =>
    let run := 1 + (rest.takeWhile (fun w => w == v)).length
    List.replicate run (((i + (i + run) + 1 : ℕ) : ℚ) / 2) ++
      assignTieRanksFrom (i + run) (rest.dropWhile (fun w => w == v))
termination_by l => l.length
decreasing_by
  simp only [List.length_cons]
  exact Nat.lt_succ_of_le (List.Sublist.length_le (List.dropWhile_sublist _))

/-- The rank assignment of `mannWhitneyU`/`kruskalWallis`, started at
index 0 over the full sorted list. -/
def assignTieRanks (l : List ℚ) : List ℚ := assignTieRanksFrom 0 l

/-- Modelled from the spec: the average ("mid-rank") rank of value `v`
in list `l` — the arithmetic mean of the 1-based rank positions occupied
by the tie group of `v`, namely `#(w < v) + (#(w = v) + 1)/2`. -/
def midRank (l : List ℚ) (v : ℚ) : ℚ :=
  (l.countP (fun w => decide (w < v)) : ℚ) +
    ((l.countP (fun w => decide (w = v)) : ℚ) + 1) / 2

/-- JavaScript `Array.prototype.lastIndexOf`, for an element present in
the list. -/
def lastIndexOf (l : List ℚ) (v : ℚ) : ℕ := l.length - 1 - l.reverse.indexOf v

/-- The inner `rank` lambda of `spearman` in `page.tsx`:
`(sorted.indexOf(v) + sorted.lastIndexOf(v)) / 2 + 1` over a sorted
copy of the input. -/
def spearmanRankList (arr : List ℚ) : List ℚ :=
  let sorted := arr.insertionSort (· ≤ ·)
  arr.map (fun v => ((sorted.indexOf v : ℚ) + (lastIndexOf sorted v : ℚ)) / 2 + 1)

/-- Result record of `spearman` in `page.tsx`. -/
structure SpearmanRes where
  r : ℚ
  t : ℚ
  df : ℚ
  p : ℚ
deriving DecidableEq

/-- `spearman` from `page.tsx`: mid-rank transform of both variables,
then the Spearman rho formula `1 − 6·Σd²/(n(n²−1))` with a t
approximation. -/
def spearman (env : Env) (x y : List ℚ) : Option SpearmanRes :=
  if x.length ≠ y.length ∨ x.length < 3 then none else
  let rx := spearmanRankList x
  let ry := spearmanRankList y
  let n : ℚ := x.length
  let d2 := ((rx.zip ry).map (fun pr => (pr.1 - pr.2) ^ 2)).sum
  let r := 1 - 6 * d2 / (n * (n * n - 1))
  let t := r * env.sqrt ((n - 2) / (1 - r * r))
  let p := 2 * (1 - env.tCdf |t| (n - 2))
  some ⟨r, t, n - 2, p⟩

/-- The ranking step of `wilcoxonSignedRank` in `page.tsx`: sort the
non-zero differences by absolute value (stable) and assign sequential
ranks `1, 2, 3, ...` in sort order; returns `(difference, rank)`
pairs. -/
def wilcoxonRanks (diffs : List ℚ) : List (ℚ × ℚ) :=
  ((diffs.insertionSort (fun x y => |x| ≤ |y|)).enum).map
    (fun pr => (pr.2, (pr.1 : ℚ) + 1))

/-- Result record of `wilcoxonSignedRank` in `page.tsx`. -/
structure WilcoxonRes where
  W : ℚ
  p : ℚ
  n : ℕ
  diffs : List ℚ
deriving DecidableEq

/-- `wilcoxonSignedRank` from `page.tsx`: `null` for unequal lengths or
fewer than 3 pairs; zero differences dropped; `null` again when fewer
than 3 non-zero differences remain, or when the normal-approximation σ
is zero. -/
def wilcoxonSignedRank (env : Env) (a b : List ℚ) : Option WilcoxonRes :=
  if a.length ≠ b.length ∨ a.length < 3 then none else
  let diffs := (a.zipWith (fun x y => x - y) b).filter (fun d => decide (d ≠ 0))
  if diffs.length < 3 then none else
  let ranks := wilcoxonRanks diffs
  let wplus := ((ranks.filter (fun r => decide (0 < r.1))).map (·.2)).sum
  let wminus := ((ranks.filter (fun r => decide (r.1 < 0))).map (·.2)).sum
  let n := ranks.length
  let w := min wplus wminus
  let mu := (n : ℚ) * ((n : ℚ) + 1) / 4
  let sigma := env.sqrt ((n : ℚ) * ((n : ℚ) + 1) * (2 * (n : ℚ) + 1) / 24)
  if sigma = 0 then none else
  let z := (w - mu) / sigma
  let p := 2 * (1 - env.normCdf |z|)
  some ⟨w, max 0 (min 1 p), n, diffs⟩

/-- Result record of `pairedTTest` in `page.tsx` (the percentile
bootstrap CI of the source draws `Math.random` and is not part of the
exact embedding). -/
structure PairedTRes where
  t : ℚ
  df : ℕ
  p : ℚ
  diff : ℚ
  d : ℚ
  hedgesG : ℚ
  diffs : List ℚ
deriving DecidableEq

/-- `pairedTTest` from `page.tsx`: `null` for unequal lengths or fewer
than 3 pairs, else the one-sample t statistic of the differences
(population variance, as `simple-statistics.variance`), the Cohen d and
Hedges g effect sizes. -/
def pairedTTest (env : Env) (a b : List ℚ) : Option PairedTRes :=
  if a.length ≠ b.length ∨ a.length < 3 then none else
  let diffs := a.zipWith (fun x y => x - y) b
  let n := diffs.length
  let m := SimpleStats.mean diffs
  let s2 := SimpleStats.variance diffs
  let t := m / env.sqrt (s2 / (n : ℚ))
  let df := n - 1
  let p := 2 * (1 - env.tCdf |t| (df : ℚ))
  let sd := env.sqrt s2
  let d := m / sd
  let g := d * (1 - 3 / (4 * (n : ℚ) - 9))
  some ⟨t, df, max 0 (min 1 p), m, d, g, diffs⟩

/-- Result record of `fit4PL` in `page.tsx`. -/
structure Fit4PLRes where
  top : ℚ
  hill : ℚ
  ec50 : ℚ
  bottom : ℚ
  ci : ℚ × ℚ
  usedPoints : ℕ
  dropped : List ℕ
deriving DecidableEq

/-- `fit4PL` from `page.tsx`.  Past the 4-point guard the source runs
the `ml-levenberg-marquardt` iterative least-squares fitter, the
ROUT-style rejection pass and a `Math.random` bootstrap of the EC50 — a
floating-point, iterative and nondeterministic computation with no
exact rational semantics, represented by the environment function
`Env.lm4pl`.  The guard, the subject of the error-handling claims, is
embedded exactly. -/
def fit4PL (env : Env) (x y : List ℚ) (fixTop fixBottom : Option ℚ) (rout : Bool) :
    Option Fit4PLRes :=
  if x.length < 4 ∨ y.length < 4 then none
  else
    let r := env.lm4pl x y fixTop fixBottom rout
    some ⟨r.1, r.2.1, r.2.2.1, r.2.2.2.1, r.2.2.2.2.1, r.2.2.2.2.2.1, r.2.2.2.2.2.2⟩

/-- Result record of `mannWhitneyU` in `page.tsx` (bootstrap CI elided,
as in `PairedTRes`). -/
structure MannWhitneyRes where
  U : ℚ
  p : ℚ
  rankBiserial : ℚ
deriving DecidableEq

/-- `mannWhitneyU` from `page.tsx`: label the two samples, sort the
union by value (stable), assign mid-ranks with the shared tie loop, and
form `U = min(U1, U2)` with a normal approximation and the rank-biserial
effect size. -/
def mannWhitneyU (env : Env) (a b : List ℚ) : MannWhitneyRes :=
  let combined := ((a.map (fun v => (v, true)) ++ b.map (fun v => (v, false))).insertionSort
    (fun x y => x.1 ≤ y.1))
  let ranks := assignTieRanks (combined.map (·.1))
  let ra := (((ranks.zip combined).filter (fun pr => pr.2.2)).map (·.1)).sum
  let na : ℚ := a.length
  let nb : ℚ := b.length
  let u1 := ra - na * (na + 1) / 2
  let u2 := na * nb - u1
  let u := min u1 u2
  let mu := na * nb / 2
  let sigma := env.sqrt (na * nb * (na + nb + 1) / 12)
  let z := (u - mu) / sigma
  let p := 2 * (1 - env.normCdf |z|)
  ⟨u, max 0 (min 1 p), 1 - 2 * u / (na * nb)⟩

/-- Result record of `kruskalWallis` in `page.tsx` (the fields the
decision path consumes). -/
structure KruskalRes where
  H : ℚ
  p : ℚ
  rankSums : List (String × ℚ)
deriving DecidableEq

/-- `kruskalWallis` from `page.tsx`: pool the non-empty groups, sort by
value (stable), assign mid-ranks with the shared tie loop, accumulate
per-group rank sums, and form the H statistic (tie correction omitted,
as documented in the source). -/
def kruskalWallis (env : Env) (groups : List (String × List ℚ)) : KruskalRes :=
  let gk := groups.filter (fun g => decide (g.2 ≠ []))
  let combined := (gk.flatMap (fun g => g.2.map (fun v => (v, g.1)))).insertionSort
    (fun x y => x.1 ≤ y.1)
  let ranks := assignTieRanks (combined.map (·.1))
  let rankSumOf := fun (k : String) =>
    (((ranks.zip combined).filter (fun pr => pr.2.2 = k)).map (·.1)).sum
  let rankSums := gk.map (fun g => (g.1, rankSumOf g.1))
  let n : ℚ := combined.length
  let H := 12 / (n * (n + 1)) *
      (gk.map (fun g => rankSumOf g.1 ^ 2 / (g.2.length : ℚ))).sum - 3 * (n + 1)
  let df := gk.length - 1
  ⟨H, max 0 (min 1 (1 - env.chisqCdf H (df : ℚ))), rankSums⟩

/-- The transform mode union of `page.tsx`
(`"none" | "log10" | "sqrt" | "arcsin"`). -/
inductive TransformMode
  | none
  | log10
  | sqrt
  | arcsin
deriving DecidableEq

/-- Result of `applyTransform` in `page.tsx`: the transformed values and
the count of dropped inputs. -/
structure TransformRes where
  vals : List ℚ
  dropped : ℕ
deriving DecidableEq

/-- `applyTransform` from `page.tsx`.  `log10` keeps strictly positive
values, `sqrt` keeps nonnegative values; `arcsin` first REPLACES every
value greater than 1 by `v / 100` and only then filters to `[0, 1]` and
applies `asin(sqrt(v))`.  `dropped` is the number of input values that
did not survive the filter. -/
def applyTransform (env : Env) (values : List ℚ) (mode : TransformMode) : TransformRes :=
  match mode with
  | .none => ⟨values, 0⟩
  | .log10 =>
    let kept := values.filter (fun v => decide (0 < v))
    ⟨kept.map env.log10, values.length - kept.length⟩
  | .sqrt =>
    let kept := values.filter (fun v => decide (0 ≤ v))
    ⟨kept.map env.sqrt, values.length - kept.length⟩
  | .arcsin =>
    let adjusted := values.map (fun v => if 1 < v then v / 100 else v)
    let kept := adjusted.filter (fun v => decide (0 ≤ v) && decide (v ≤ 1))
    ⟨kept.map (fun v => env.asin (env.sqrt v)), values.length - kept.length⟩

/-- The `dataType` state union of `page.tsx`. -/
inductive DataType
  | continuous
  | doseResponse
  | survival
  | correlation
  | categorical
deriving DecidableEq

/-- The `independence` state union of `page.tsx`. -/
inductive Independence
  | independent
  | paired
deriving DecidableEq

/-- Tagged test selection: each constructor stands for the exact `test`
string returned by `decision` in `page.tsx`:
`pairedT` = "Paired t-test"; `transformRetest` = "Transform + re-test";
`wilcoxonSR` = "Wilcoxon signed-rank"; `welchT` = the Welch two-tailed
default t-test; `mannWhitney` = "Mann-Whitney U"; `oneWayAnova` =
"One-Way ANOVA"; `transformAnovaRetest` = "Transform + ANOVA/parametric
retest"; `kruskalDunn` = the Kruskal-Wallis with Holm-adjusted Dunn
post-hoc; `fourPL` = "4-Parameter Logistic (4PL) regression". -/
inductive TestSel
  | pairedT
  | transformRetest
  | wilcoxonSR
  | welchT
  | mannWhitney
  | oneWayAnova
  | transformAnovaRetest
  | kruskalDunn
  | fourPL
deriving DecidableEq

/-- The fields of the `diagnostics` memo of `page.tsx` that `decision`
reads: the pooled Shapiro-Wilk p (`normal.p`), the transformed-sample
Shapiro-Wilk p (`transformedNormal?.p`, `none` when absent), and the
Levene p (`varianceCheck?.p`, `none` when fewer than 2 groups).  These
values are produced upstream by floating-point special functions; see
`shapiroWilkApprox` and `leveneTest`. -/
structure Diagnostics where
  normalP : ℚ
  transformedNormalP : Option ℚ
  varP : Option ℚ
deriving DecidableEq

/-- The test-selection component of the `DecisionOutcome` record of
`page.tsx`.  The `rationale` and `resultSummary` strings (number
formatting of the executed test, post-hoc listings, the Dunnett-style
comparisons controlled by `dunnettControl`, and the Student-t variant
surfaced when `varianceEqual`) are presentation text built from the same
branch and are elided from the embedding; they do not affect which test
is selected. -/
structure DecisionOutcome where
  test : TestSel
deriving DecidableEq

/-- The `decision` memo of `page.tsx`, as a function of its inputs
(`diagnostics`, `transformedGroups`, `dataType`, `independence`,
`mapping.concentration` presence, `responseColumn` presence).  The
thresholds compare against the source literal `0.05`, modelled as
`1/20`.  Branch structure follows the source exactly; branches that
return the same `test` with different summary strings (for example the
insufficient-data paths inside the paired branch) collapse to the same
constructor. -/
def decision (diagnostics : Option Diagnostics) (transformedGroups : List (String × List ℚ))
    (dataType : DataType) (independence : Independence) (hasConcentration : Bool)
    (hasResponse : Bool) : Option DecisionOutcome :=
  match diagnostics with
  | none => none
  | some d =>
    if hasResponse = false then none
    else
      let groupKeys := (transformedGroups.filter (fun g => decide (g.2 ≠ []))).map (fun g => g.1)
      let k := groupKeys.length
      let normal := decide ((1 : ℚ)/20 < d.normalP)
      let transformedBetter :=
        match d.transformedNormalP with
        | some p => decide ((1 : ℚ)/20 < p) && decide (d.normalP ≤ 1/20)
        | none => false
      if dataType = .doseResponse ∧ hasConcentration = true then some ⟨.fourPL⟩
      else if k = 2 then
        if independence = .paired then
          if normal = true then some ⟨.pairedT⟩
          else if transformedBetter = true then some ⟨.transformRetest⟩
          else some ⟨.wilcoxonSR⟩
        else if normal = true ∧ independence = .independent then some ⟨.welchT⟩
        else if transformedBetter = true then some ⟨.transformRetest⟩
        else some ⟨.mannWhitney⟩
      else if 2 < k then
        if normal = true then some ⟨.oneWayAnova⟩
        else if transformedBetter = true then some ⟨.transformAnovaRetest⟩
        else some ⟨.kruskalDunn⟩
      else none

/-- Result record of `leveneTest` in `page.tsx`. -/
structure LeveneRes where
  f : ℚ
  p : ℚ
deriving DecidableEq

/-- The pooled `z`/`labels` arrays of `leveneTest`: absolute deviations
from the per-group median, labelled by group, over the non-empty
groups. -/
def leveneZL (groups : List (String × List ℚ)) : List (ℚ × String) :=
  (groups.filter (fun g => decide (g.2 ≠ []))).flatMap
    (fun g => g.2.map (fun v => (|v - SimpleStats.median g.2|, g.1)))

/-- The `groupMeans` lookup of `leveneTest`: mean of the `z` values
carrying a given label (0 when there are none). -/
def leveneGroupMean (zl : List (ℚ × String)) (key : String) : ℚ :=
  let vals := (zl.filter (fun pr => decide (pr.2 = key))).map (fun pr => pr.1)
  if vals = [] then 0 else SimpleStats.mean vals

/-- The denominator of the Levene F statistic in `page.tsx`: the
within-group sum of squares of the `z` values, times `k − 1`. -/
def leveneDenom (groups : List (String × List ℚ)) : ℚ :=
  let zl := leveneZL groups
  let k := (groups.filter (fun g => decide (g.2 ≠ []))).length
  ((zl.map (fun pr => (pr.1 - leveneGroupMean zl pr.2) ^ 2)).sum) * ((k : ℚ) - 1)

/-- `leveneTest` from `page.tsx` (Brown-Forsythe variant: deviations from
the median): `null` when fewer than 2 non-empty groups; the sentinel
`{f: 0, p: 1}` when the within-group denominator is exactly 0; otherwise
the F ratio with `p = 1 − F.cdf` clamped into `[0, 1]`. -/
def leveneTest (env : Env) (groups : List (String × List ℚ)) : Option LeveneRes :=
  let gk := groups.filter (fun g => decide (g.2 ≠ []))
  let k := gk.length
  let bigN := (gk.map (fun g => g.2.length)).sum
  if k < 2 ∨ bigN = 0 then none
  else
    let zl := leveneZL groups
    let grandMean := SimpleStats.mean (zl.map (fun pr => pr.1))
    let numerator :=
      ((gk.map (fun g => (g.2.length : ℚ) * (leveneGroupMean zl g.1 - grandMean) ^ 2)).sum) *
        ((bigN : ℚ) - (k : ℚ))
    let denominator := leveneDenom groups
    if denominator = 0 then some ⟨0, 1⟩
    else
      let f := numerator / denominator
      some ⟨f, max 0 (min 1 (1 - env.fCdf f ((k : ℚ) - 1) ((bigN : ℚ) - (k : ℚ))))⟩

/-- The per-group Kaplan-Meier walk of `page.tsx` (survival chart memo):
given the at-risk count and the running survival, an event multiplies
the survival by `1 − 1/atRisk` when `atRisk > 0`, a censored observation
leaves it unchanged (and is marked on the chart), the at-risk count
decrements after every observation, and a curve point is pushed after
every observation.  Status is `1` for an event, `0` for censored. -/
def kmSteps : ℤ → ℚ → List (ℚ × ℕ) → List (ℚ × ℚ)
  | _, _, [] => []
  | atRisk, surv, pt :: rest =>
    let surv2 := if pt.2 = 1 ∧ 0 < atRisk then surv * (1 - 1 / (atRisk : ℚ)) else surv
    (pt.1, surv2) :: kmSteps (atRisk - 1) surv2 rest

/-- The full Kaplan-Meier curve of one group as charted by `page.tsx`:
sort the observations by time ascending (stable) and walk them starting
from the point `(0, 1)` with everyone at risk. -/
def kmCurve (series : List (ℚ × ℕ)) : List (ℚ × ℚ) :=
  let s := series.insertionSort (fun a b => a.1 ≤ b.1)
  (0, 1) :: kmSteps (s.length : ℤ) 1 s

/-- Result record of `logRankTest` in `page.tsx`. -/
structure LogRankRes where
  chi : ℚ
  df : ℕ
  p : ℚ
deriving DecidableEq

/-- The event-time loop of `logRankTest`: events are sorted by time, and
the source `forEach` plus in-place `splice` of duplicate-time entries
process each distinct event time once, which this recursion models by
consuming the whole block of equal times per step.  At each block: `d` =
events in the block, `n` = total at risk; per group, observed and
expected counts and a variance row; the observed-minus-expected terms
are aggregated into a single scalar before squaring (as the source
comments, aggregated for simplicity); at-risk counts decrement by the
number of block members per group.  When `n = 0` the source skips the
block body, leaving every later contribution unchanged, so the
accumulator is returned (unreachable when called from `logRankTest`). -/
def lrLoop : List (String × ℤ) → ℚ → List (ℚ × String × ℕ) → ℚ
  | _, chi, [] => chi
  | atRisk, chi, e :: rest =>
    let atT := e :: rest.takeWhile (fun x => x.1 == e.1)
    let rest2 := rest.dropWhile (fun x => x.1 == e.1)
    let d : ℚ := (atT.countP (fun x => x.2.2 == 1) : ℕ)
    let n : ℚ := ((atRisk.map (fun pr => pr.2)).sum : ℤ)
    if n = 0 then chi
    else
      let obsMinusExp := (atRisk.map (fun pr =>
        ((atT.countP (fun x => x.2.2 == 1 && x.2.1 == pr.1) : ℕ) : ℚ) -
          ((pr.2 : ℚ) / n) * d)).sum
      let nm1 := if n - 1 = 0 then 1 else n - 1
      let sumVar0 := (atRisk.map (fun pr =>
        ((pr.2 : ℚ) / n) * (1 - (pr.2 : ℚ) / n) * (d * (n - d) / nm1))).sum
      let sumVar := if sumVar0 = 0 then 1 else sumVar0
      let chi2 := chi + obsMinusExp ^ 2 / sumVar
      let atRisk2 := atRisk.map (fun pr =>
        (pr.1, pr.2 - ((atT.countP (fun x => x.2.1 == pr.1) : ℕ) : ℤ)))
      lrLoop atRisk2 chi2 rest2
termination_by _ _ l => l.length
decreasing_by
  simp only [List.length_cons]
  exact Nat.lt_succ_of_le (List.Sublist.length_le (List.dropWhile_sublist _))

/-- `logRankTest` from `page.tsx`: `null` when fewer than 2 non-empty
groups (there is NO requirement that groups contain events); otherwise
the pooled observations are sorted by time, the block loop accumulates
the chi-square statistic, and `df = groupCount − 1`. -/
def logRankTest (env : Env) (groups : List (String × List (ℚ × ℕ))) : Option LogRankRes :=
  let gk := groups.filter (fun g => decide (g.2 ≠ []))
  if gk.length < 2 then none
  else
    let events := (gk.flatMap (fun g => g.2.map (fun r => (r.1, g.1, r.2)))).insertionSort
      (fun a b => a.1 ≤ b.1)
    let atRisk0 := gk.map (fun g => (g.1, (g.2.length : ℤ)))
    let chi := lrLoop atRisk0 0 events
    let df := gk.length - 1
    some ⟨chi, df, 1 - env.chisqCdf chi (df : ℚ)⟩

end StatPage

namespace StatLib

/-- The `Transform` union of `descriptive.ts`
(`"none" | "log2" | "log10"`). -/
inductive Transform
  | none
  | log2
  | log10
deriving DecidableEq

/-- The two warning messages `descriptive.ts` can push (fixed strings in
the source): the transform-applied notice from `applyTransform`, and the
count-bearing exclusion notice from `computeGroupStats`. -/
inductive StatWarning
  | logApplied
  | logExcluded (count : ℕ)
deriving DecidableEq

/-- Result of `applyTransform` in `descriptive.ts`: the transformed
values, whether the (fixed-text) warning string is non-null, and the
list of excluded non-positive inputs. -/
structure TransformOut where
  values : List ℚ
  warning : Bool
  excluded : List ℚ
deriving DecidableEq

/-- The per-value `forEach` loop of `applyTransform` in
`descriptive.ts`, as a recursion producing the `transformed` and
`excluded` arrays in traversal order: a non-positive value is pushed
onto `excluded`, and the loop moves on without transforming it unless
`allowNonPositive` is set, in which case `f v` is pushed onto
`transformed` anyway; positive values are transformed
unconditionally. -/
def logLoop (f : ℚ → ℚ) (allowNonPositive : Bool) : List ℚ → List ℚ × List ℚ
  | [] => ([], [])
  | v :: rest =>
    let st := logLoop f allowNonPositive rest
    ((if v ≤ 0 ∧ allowNonPositive = false then [] else [f v]) ++ st.1,
      (if v ≤ 0 then [v] else []) ++ st.2)

/-- `applyTransform` in `descriptive.ts` for a log transform `f`: runs
the loop; the warning string is non-null exactly when something was
excluded. -/
def applyLogTransform (f : ℚ → ℚ) (values : List ℚ) (allowNonPositive : Bool) : TransformOut :=
  let st := logLoop f allowNonPositive values
  ⟨st.1, decide (st.2 ≠ []), st.2⟩

/-- `applyTransform` from `descriptive.ts`: identity for `none`,
otherwise the log loop with `Math.log2` / `Math.log10`. -/
def applyTransform (env : Env) (values : List ℚ) (transform : Transform)
    (allowNonPositive : Bool) : TransformOut :=
  match transform with
  | .none => ⟨values, false, []⟩
  | .log2 => applyLogTransform env.log2 values allowNonPositive
  | .log10 => applyLogTransform env.log10 values allowNonPositive

/-- `multiMode` from `descriptive.ts`: empty when no value repeats,
otherwise all values tied at the maximal repeat count, ascending. -/
def multiMode (values : List ℚ) : List ℚ :=
  if values = [] then []
  else
    let counts := values.eraseDups.map (fun v => (v, values.count v))
    let maxCount : ℕ := (counts.map (fun c => c.2)).foldl max 0
    if maxCount ≤ 1 then []
    else ((counts.filter (fun c => decide (c.2 = maxCount))).map (fun c => c.1)).insertionSort
      (· ≤ ·)

/-- `inverseNormal` from `descriptive.ts` (the Acklam rational
approximation of the standard normal quantile function); its only
non-rational ingredients are `Math.log` and `Math.sqrt`, taken from the
environment. -/
def inverseNormal (env : Env) (p : ℚ) : ℚ :=
  let a1 : ℚ := -39.6968302866538
  let a2 : ℚ := 220.946098424521
  let a3 : ℚ := -275.928510446969
  let a4 : ℚ := 138.357751867269
  let a5 : ℚ := -30.6647980661472
  let a6 : ℚ := 2.50662827745924
  let b1 : ℚ := -54.4760987982241
  let b2 : ℚ := 161.585836858041
  let b3 : ℚ := -155.698979859887
  let b4 : ℚ := 66.8013118877197
  let b5 : ℚ := -13.2806815528857
  let c1 : ℚ := -7.78489400243029e-03
  let c2 : ℚ := -0.322396458041136
  let c3 : ℚ := -2.40075827716184
  let c4 : ℚ := -2.54973253934373
  let c5 : ℚ := 4.37466414146497
  let c6 : ℚ := 2.93816398269878
  let d1 : ℚ := 7.78469570904146e-03
  let d2 : ℚ := 0.32246712907004
  let d3 : ℚ := 2.445134137143
  let d4 : ℚ := 3.75440866190742
  let plow : ℚ := 0.02425
  let phigh : ℚ := 1 - plow
  if p < plow then
    let q := env.sqrt (-2 * env.log p)
    (((((c1 * q + c2) * q + c3) * q + c4) * q + c5) * q + c6) /
      ((((d1 * q + d2) * q + d3) * q + d4) * q + 1)
  else if phigh < p then
    let q := env.sqrt (-2 * env.log (1 - p))
    let v := (((((c1 * q + c2) * q + c3) * q + c4) * q + c5) * q + c6) /
      ((((d1 * q + d2) * q + d3) * q + d4) * q + 1);
    -v
  else
    let q := p - 0.5
    let r := q * q
    (((((a1 * r + a2) * r + a3) * r + a4) * r + a5) * r + a6) * q /
      (((((b1 * r + b2) * r + b3) * r + b4) * r + b5) * r + 1)

/-- The `NormalityLabel` union of `descriptive.ts`. -/
inductive NormalityLabel
  | looksRoughlyNormal
  | possiblyNonNormal
  | notReliable
deriving DecidableEq

/-- `classifyNormality` from `descriptive.ts`: the source tests `!w`,
which is true both for `null` and for `W === 0`; the `W ≥ 0.9` branch of
the source returns the same label as its final fallback, and the two are
kept separate here to mirror the code. -/
def classifyNormality (w : Option ℚ) (n : ℕ) : NormalityLabel :=
  match w with
  | none => .notReliable
  | some w0 =>
    if w0 = 0 ∨ n < 3 then .notReliable
    else if (0.97 : ℚ) ≤ w0 then .looksRoughlyNormal
    else if (0.9 : ℚ) ≤ w0 then .possiblyNonNormal
    else .possiblyNonNormal

/-- Result of `approxShapiro` in `descriptive.ts`. -/
structure ShapiroOut where
  W : ℚ
  label : NormalityLabel
deriving DecidableEq

/-- `approxShapiro` from `descriptive.ts`: `null` below 3 values; `W = 1`
with the roughly-normal label when the sum of squared deviations is 0;
otherwise the Shapiro-Wilk style statistic `W = (Σ aᵢ xᵢ)² / Σ(xᵢ−x̄)²`
with normalized expected order-statistic scores from `inverseNormal`. -/
def approxShapiro (env : Env) (values : List ℚ) : Option ShapiroOut :=
  if values.length < 3 then none
  else
    let sorted := values.insertionSort (· ≤ ·)
    let n := sorted.length
    let m0 := SimpleStats.mean sorted
    let ss := (sorted.map (fun v => (v - m0) ^ 2)).sum
    if ss = 0 then some ⟨1, .looksRoughlyNormal⟩
    else
      let m := (List.range n).map
        (fun i => inverseNormal env ((((i : ℚ) + 1) - 0.375) / ((n : ℚ) + 0.25)))
      let denom := env.sqrt ((m.map (fun v => v * v)).sum)
      let a := m.map (fun v => v / denom)
      let b := ((a.zip sorted).map (fun pr => pr.1 * pr.2)).sum
      some ⟨(b * b) / ss, classifyNormality (some ((b * b) / ss)) n⟩

/-- The `ci95` record of `GroupStats` in `descriptive.ts`. -/
structure Ci95 where
  low : ℚ
  high : ℚ
  df : ℕ
deriving DecidableEq

/-- `computeTci` from `descriptive.ts`: `null` when `nBio ≤ 1`, else
`mean ± t₀.₉₇₅,df · sem` with `df = nBio − 1`. -/
def computeTci (env : Env) (m sem : ℚ) (nBio : ℕ) : Option Ci95 :=
  if nBio ≤ 1 then none
  else
    let df := nBio - 1
    let t := env.tInv (0.975 : ℚ) (df : ℚ)
    some ⟨m - t * sem, m + t * sem, df⟩

/-- The `iqrFlags` record of `GroupStats` in `descriptive.ts`. -/
structure IqrFlags where
  low : ℕ
  high : ℕ
  count : ℕ
  indices : List ℕ
deriving DecidableEq

/-- The body of the interquartile-fence `reduce` of `computeGroupStats`:
flag an indexed value strictly outside the fences, bumping the low/high
and total counts and recording the index. -/
def iqrStep (lowerFence upperFence : ℚ) (acc : IqrFlags) (pr : ℕ × ℚ) : IqrFlags :=
  if pr.2 < lowerFence then ⟨acc.low + 1, acc.high, acc.count + 1, acc.indices ++ [pr.1]⟩
  else if upperFence < pr.2 then ⟨acc.low, acc.high + 1, acc.count + 1, acc.indices ++ [pr.1]⟩
  else acc

/-- The interquartile-fence `reduce` of `computeGroupStats`: walk the
sorted sample with its indices and flag every value strictly outside the
fences (the flagged indices therefore index into the sorted sample). -/
def iqrFlagsOf (sorted : List ℚ) (lowerFence upperFence : ℚ) : IqrFlags :=
  sorted.enum.foldl (iqrStep lowerFence upperFence) ⟨0, 0, 0, []⟩

/-- The `RawRow` input record of `descriptive.ts` (the `unit`,
`rawValue` and `issues` fields of the TypeScript interface are
ingestion metadata never read by `computeGroupStats` and are elided). -/
structure RawRow where
  rowId : ℕ
  group : String
  bioRep : Option String
  techRep : Option String
  value : Option ℚ
deriving DecidableEq

/-- `ReplicateType` from `descriptive.ts`. -/
inductive ReplicateType
  | biological
  | technical
deriving DecidableEq

/-- `TechnicalHandling` from `descriptive.ts`. -/
inductive TechnicalHandling
  | average
  | separate
deriving DecidableEq

/-- `MissingHandling` from `descriptive.ts` (accepted in the options
record; `computeGroupStats` itself only reads the fields below it). -/
inductive MissingHandling
  | ignore
  | dropReplicate
deriving DecidableEq

/-- `VarianceConvention` from `descriptive.ts`. -/
inductive VarianceConvention
  | sample
  | population
deriving DecidableEq

/-- The `ciMethod` union (`"t95" | "none"`) of `ComputeOptions`. -/
inductive CiMethod
  | t95
  | none
deriving DecidableEq

/-- `ComputeOptions` from `descriptive.ts`. -/
structure ComputeOptions where
  replicateType : ReplicateType
  technicalHandling : TechnicalHandling
  missingHandling : MissingHandling
  transform : Transform
  allowNonPositiveLog : Bool
  varianceConvention : VarianceConvention
  iqrMultiplier : ℚ
  ciMethod : CiMethod
deriving DecidableEq

/-- `GroupStats` from `descriptive.ts` (the `normality` sub-record is
flattened into its `w` and `label` fields). -/
structure GroupStats where
  group : String
  nBio : ℕ
  nTech : ℕ
  mean : ℚ
  median : ℚ
  modes : List ℚ
  sd : ℚ
  variance : ℚ
  sem : ℚ
  cv : ℚ
  min : ℚ
  max : ℚ
  range : ℚ
  ci95 : Option Ci95
  normalityW : Option ℚ
  normalityLabel : NormalityLabel
  iqrFlags : IqrFlags
  valuesUsed : List ℚ
  iqrMultiplier : ℚ
deriving DecidableEq

/-- `ComputeResult` from `descriptive.ts`. -/
structure ComputeResult where
  stats : List GroupStats
  warnings : List StatWarning
deriving DecidableEq

/-- The biological-replicate key of a row in `computeGroupStats`:
`r.bioRep || "bio-" + r.rowId` (the JavaScript fallback also fires on
the empty string). -/
def bioKey (r : RawRow) : String :=
  match r.bioRep with
  | some s => if s = "" then "bio-" ++ toString r.rowId else s
  | none => "bio-" ++ toString r.rowId

/-- The `groupedByBio` accumulator of `computeGroupStats`: group the
rows of one group by biological key in first-seen key order, pushing the
row value when present (a key whose rows all lack values still appears,
with an empty list). -/
def groupValuesByBio (inGroup : List RawRow) : List (String × List ℚ) :=
  inGroup.foldl
    (fun acc r =>
      let key := bioKey r
      if acc.any (fun pr => pr.1 == key) then
        acc.map (fun pr => if pr.1 = key then (pr.1, pr.2 ++ r.value.toList) else pr)
      else acc ++ [(key, r.value.toList)])
    []

/-- The per-group body of `computeGroupStats` in `descriptive.ts`:
filters the rows of the group, counts biological and technical
replicates, collapses technical replicates per the options, applies the
transform, and — when the transformed sample is non-empty — computes the
full `GroupStats` record over the sorted transformed sample.  Returns
the optional record together with the warnings pushed for this group
(the source pushes its warnings before the empty-sample early return,
so they are reported even when the group is skipped). -/
def groupStatsOne (env : Env) (options : ComputeOptions) (rows : List RawRow)
    (group : String) : Option GroupStats × List StatWarning :=
  let inGroup := rows.filter
    (fun r => decide ((if r.group = "" then "Ungrouped" else r.group) = group))
  if inGroup = [] then (none, [])
  else
    let nBio := (inGroup.map bioKey).eraseDups.length
    let nTech := inGroup.countP (fun r => r.techRep.isSome)
    let values :=
      match options.replicateType with
      | .biological => inGroup.filterMap (fun r => r.value)
      | .technical =>
        let byBio := groupValuesByBio inGroup
        match options.technicalHandling with
        | .average =>
          (byBio.filter (fun pr => decide (pr.2 ≠ []))).map (fun pr => SimpleStats.mean pr.2)
        | .separate => byBio.flatMap (fun pr => pr.2)
    let tr := applyTransform env values options.transform options.allowNonPositiveLog
    let warnings :=
      (if tr.warning = true then [StatWarning.logApplied] else []) ++
      (if tr.excluded ≠ [] ∧ options.transform ≠ .none ∧ options.allowNonPositiveLog = false
        then [StatWarning.logExcluded tr.excluded.length] else [])
    if tr.values = [] then (none, warnings)
    else
      let sorted := tr.values.insertionSort (· ≤ ·)
      let modes := multiMode sorted
      let varianceV :=
        if 1 < sorted.length then
          match options.varianceConvention with
          | .sample => SimpleStats.sampleVariance sorted
          | .population => SimpleStats.variance sorted
        else 0
      let sd := env.sqrt (max varianceV 0)
      let sem := sd / env.sqrt (if nBio = 0 then (1 : ℚ) else (nBio : ℚ))
      let cv := if SimpleStats.mean sorted = 0 then 0 else (sd / |SimpleStats.mean sorted|) * 100
      let q1 := SimpleStats.quantileSorted sorted (0.25 : ℚ)
      let q3 := SimpleStats.quantileSorted sorted (0.75 : ℚ)
      let iqr := q3 - q1
      let lowerFence := q1 - options.iqrMultiplier * iqr
      let upperFence := q3 + options.iqrMultiplier * iqr
      let flags := iqrFlagsOf sorted lowerFence upperFence
      let shapiro := approxShapiro env sorted
      let ci :=
        if options.ciMethod = .t95 ∧ 1 < sorted.length then
          computeTci env (SimpleStats.mean sorted) sem nBio
        else none
      (some
        { group := group
          nBio := nBio
          nTech := nTech
          mean := SimpleStats.mean sorted
          median := SimpleStats.median sorted
          modes := modes
          sd := sd
          variance := varianceV
          sem := sem
          cv := cv
          min := sorted.getD 0 0
          max := sorted.getD (sorted.length - 1) 0
          range := sorted.getD (sorted.length - 1) 0 - sorted.getD 0 0
          ci95 := ci
          normalityW := shapiro.map (fun s => s.W)
          normalityLabel := (shapiro.map (fun s => s.label)).getD .notReliable
          iqrFlags := flags
          valuesUsed := sorted
          iqrMultiplier := options.iqrMultiplier }, warnings)

/-- `computeGroupStats` from `descriptive.ts`: one pass per distinct
group name (in first-appearance order; empty names fall back to
`"Ungrouped"`), collecting the per-group records and the per-group
warnings — the source pushes both into two result arrays group by
group, so collecting each separately preserves both orders. -/
def computeGroupStats (env : Env) (rows : List RawRow) (options : ComputeOptions) :
    ComputeResult :=
  let groups := (rows.map (fun r => if r.group = "" then "Ungrouped" else r.group)).eraseDups
  { stats := groups.filterMap (fun g => (groupStatsOne env options rows g).1)
    warnings := groups.flatMap (fun g => (groupStatsOne env options rows g).2) }

end StatLib


/-- Concrete fixture used by witnesses: two biological replicates of one
group with values 1 and 3. -/
def rowsW : List StatLib.RawRow :=
  [⟨0, "A", some "b1", none, some 1⟩, ⟨1, "A", some "b2", none, some 3⟩]

/-- Concrete fixture: default-style options with sample variance, IQR
multiplier 1.5 and the t95 confidence interval. -/
def optsW : StatLib.ComputeOptions :=
  ⟨.biological, .average, .ignore, .none, false, .sample, 3/2, .t95⟩

/-- The group record `computeGroupStats` produces for `rowsW` under
`optsW` and `env₀`. -/
def gsW : StatLib.GroupStats :=
  ⟨"A", 2, 0, 2, 2, [], 2, 2, 1, 100, 1, 3, 2, some ⟨1, 3, 1⟩, none, .notReliable,
    ⟨0, 0, 0, []⟩, [1, 3], 3/2⟩

/-- Concrete fixture: a two-value group whose fences (under the
`optsW2` multiplier) flag both values. -/
def rowsW2 : List StatLib.RawRow :=
  [⟨0, "B", some "x", none, some 1⟩, ⟨1, "B", some "y", none, some 100⟩]

/-- Concrete fixture: options with IQR multiplier −1/2, which shrinks
the fences inside the sample so that flags are exercised. -/
def optsW2 : StatLib.ComputeOptions :=
  ⟨.biological, .average, .ignore, .none, false, .sample, -(1/2), .t95⟩

/-- The group record `computeGroupStats` produces for `rowsW2` under
`optsW2` and `env₀`: both indices flagged. -/
def gsW2 : StatLib.GroupStats :=
  ⟨"B", 2, 0, 101/2, 101/2, [], 9801/2, 9801/2, 9801/4, 980100/101, 1, 100, 99,
    some ⟨-9599/4, 10003/4, 1⟩, none, .notReliable, ⟨1, 1, 2, [0, 1]⟩, [1, 100], -(1/2)⟩

/-- C2: evaluating `adjustPValues` at the raw p-values `[0.1, 0.9]`
(all in `[0,1]`): the Holm adjustment returns `[0.9, 0.9]` while
Bonferroni returns `[0.2, 1]`, so the Holm result is NOT elementwise ≤
the Bonferroni result — at index 0, `0.9 > 0.2`.  The cumulative-maximum
pass of the source walks the sorted positions in descending order,
contradicting the standard Holm step-down adjustment and the comment in
the source that Holm needs the cumulative max in sorted order (the
correct Holm adjustment of this input is `[0.2, 0.9]`). -/
theorem C2_holm_exceeds_bonferroni :
    StatPage.adjustPValues [1/10, 9/10] .holm = [9/10, 9/10] ∧
    StatPage.adjustPValues [1/10, 9/10] .bonferroni = [1/5, 1] ∧
    ¬ ((9 : ℚ)/10 ≤ 1/5) := by
  refine ⟨?_, ?_, by norm_num⟩ <;>
  · simp [StatPage.adjustPValues, List.insertionSort, List.orderedInsert, List.enum,
      List.enumFrom, List.set]
    norm_num

namespace StatPage

/-- In a sorted list bounded below by `v`, everything surviving
`dropWhile (== v)` is strictly greater than `v`. -/
lemma dropWhile_sorted_gt {v : ℚ} {l : List ℚ} (hs : l.Sorted (· ≤ ·))
    (hle : ∀ w ∈ l, v ≤ w) : ∀ w ∈ l.dropWhile (fun w => w == v), v < w := by
  induction l with
  | nil => simp
  | cons a t ih =>
    rw [List.sorted_cons] at hs
    by_cases ha : a = v
    · rw [List.dropWhile_cons]
      simp only [ha, beq_self_eq_true, if_true]
      exact ih hs.2 (fun w hw => ha ▸ hs.1 w hw)
    · rw [List.dropWhile_cons]
      simp only [beq_iff_eq, ha, if_false]
      intro w hw
      rcases List.mem_cons.1 hw with rfl | hw
      · exact lt_of_le_of_ne (hle w (List.mem_cons_self _ _)) (Ne.symm ha)
      · exact lt_of_lt_of_le
          (lt_of_le_of_ne (hle a (List.mem_cons_self _ _)) (Ne.symm ha)) (hs.1 w hw)

/-- A list bounded below by `v` has no element strictly below `v`. -/
lemma countP_lt_eq_zero {v : ℚ} {l : List ℚ} (hle : ∀ w ∈ l, v ≤ w) :
    l.countP (fun w => decide (w < v)) = 0 :=
  List.countP_eq_zero.2 (fun a ha => by simpa using not_lt.2 (hle a ha))

/-- On a sorted list the source tie loop computes exactly the mid-rank
of every element, shifted by the running start index `i`. -/
theorem assignTieRanksFrom_eq : ∀ (l : List ℚ), l.Sorted (· ≤ ·) → ∀ (i : ℕ),
    assignTieRanksFrom i l = l.map (fun w => (i : ℚ) + midRank l w)
  | [], _, i => by simp [assignTieRanksFrom]
  | v :: rest, hs0, i => by
    rw [assignTieRanksFrom]
    rw [List.sorted_cons] at hs0
    set tw := rest.takeWhile (fun w => w == v) with htw_def
    set dw := rest.dropWhile (fun w => w == v) with hdw_def
    have hrest : rest = tw ++ dw := (List.takeWhile_append_dropWhile _ _).symm
    have htw : ∀ w ∈ tw, w = v := fun w hw => by
      simpa using List.mem_takeWhile_imp hw
    have hdw_sorted : dw.Sorted (· ≤ ·) :=
      List.Pairwise.sublist (List.dropWhile_sublist _) hs0.2
    have hdw_gt : ∀ w ∈ dw, v < w := dropWhile_sorted_gt hs0.2 hs0.1
    have hrec := assignTieRanksFrom_eq dw hdw_sorted (i + (1 + tw.length))
    rw [hrec]
    have hcLt_v : (v :: rest).countP (fun w => decide (w < v)) = 0 := by
      refine countP_lt_eq_zero ?_
      intro w hw
      rcases List.mem_cons.1 hw with rfl | hw
      · exact le_refl w
      · exact hs0.1 w hw
    have hcEq_v : (v :: rest).countP (fun w => decide (w = v)) = 1 + tw.length := by
      rw [hrest, List.countP_cons, List.countP_append]
      have h1 : tw.countP (fun w => decide (w = v)) = tw.length :=
        List.countP_eq_length.2 (fun a ha => by simpa using htw a ha)
      have h2 : dw.countP (fun w => decide (w = v)) = 0 :=
        List.countP_eq_zero.2 (fun a ha => by simpa using ne_of_gt (hdw_gt a ha))
      simp [h1, h2]
      omega
    have hhead : (i : ℚ) + midRank (v :: rest) v =
        ((i + (i + (1 + tw.length)) + 1 : ℕ) : ℚ) / 2 := by
      simp only [midRank, hcLt_v, hcEq_v]
      push_cast
      ring
    have htwmap : tw.map (fun w => (i : ℚ) + midRank (v :: rest) w) =
        List.replicate tw.length (((i + (i + (1 + tw.length)) + 1 : ℕ) : ℚ) / 2) := by
      rw [show tw.map (fun w => (i : ℚ) + midRank (v :: rest) w)
          = tw.map (fun _ => ((i + (i + (1 + tw.length)) + 1 : ℕ) : ℚ) / 2) from
        List.map_congr_left (fun a ha => by rw [htw a ha]; exact hhead)]
      exact List.map_const' _ _
    have hdwmap : dw.map (fun w => ((i + (1 + tw.length) : ℕ) : ℚ) + midRank dw w) =
        dw.map (fun w => (i : ℚ) + midRank (v :: rest) w) := by
      refine List.map_congr_left (fun w hw => ?_)
      have hvw : v < w := hdw_gt w hw
      have hcLt : (v :: rest).countP (fun u => decide (u < w)) =
          (1 + tw.length) + dw.countP (fun u => decide (u < w)) := by
        rw [hrest, List.countP_cons, List.countP_append]
        have h1 : tw.countP (fun u => decide (u < w)) = tw.length :=
          List.countP_eq_length.2 (fun a ha => by simp [htw a ha, hvw])
        simp [h1, hvw]
        omega
      have hcEq : (v :: rest).countP (fun u => decide (u = w)) =
          dw.countP (fun u => decide (u = w)) := by
        rw [hrest, List.countP_cons, List.countP_append]
        have h1 : tw.countP (fun u => decide (u = w)) = 0 :=
          List.countP_eq_zero.2 (fun a ha => by
            simp only [decide_eq_true_eq]
            rw [htw a ha]
            exact ne_of_lt hvw)
        simp [h1, (ne_of_lt hvw : v ≠ w)]
      simp only [midRank, hcLt, hcEq]
      push_cast
      ring
    rw [hdwmap, List.map_cons]
    rw [show rest.map (fun w => (i : ℚ) + midRank (v :: rest) w)
        = tw.map (fun w => (i : ℚ) + midRank (v :: rest) w)
          ++ dw.map (fun w => (i : ℚ) + midRank (v :: rest) w) from by
      rw [← List.map_append, ← hrest]]
    rw [htwmap, hhead]
    rw [show (1 + tw.length) = tw.length + 1 from Nat.add_comm _ _, List.replicate_succ,
      List.cons_append]
termination_by l => l.length
decreasing_by
  simp only [List.length_cons]
  exact Nat.lt_succ_of_le (List.Sublist.length_le (List.dropWhile_sublist _))

/-- First occurrence index in a sorted list counts the strictly smaller
elements. -/
lemma indexOf_sorted_eq_countLt : ∀ {l : List ℚ}, l.Sorted (· ≤ ·) → ∀ {v : ℚ}, v ∈ l →
    l.indexOf v = l.countP (fun w => decide (w < v)) := by
  intro l
  induction l with
  | nil => simp
  | cons a t ih =>
    intro hs v hv
    rw [List.sorted_cons] at hs
    rw [List.indexOf_cons]
    by_cases hav : a = v
    · subst hav
      simp only [beq_self_eq_true, cond_true]
      rw [List.countP_cons]
      have h0 : t.countP (fun w => decide (w < a)) = 0 := countP_lt_eq_zero hs.1
      simp [h0]
    · have hvt : v ∈ t := by
        rcases List.mem_cons.1 hv with rfl | h
        · exact absurd rfl hav
        · exact h
      have hlt : a < v := lt_of_le_of_ne (hs.1 v hvt) hav
      rw [show (a == v) = false from beq_eq_false_iff_ne.mpr hav, cond_false]
      rw [List.countP_cons, ih hs.2 hvt]
      simp [hlt]

/-- First occurrence index in a reverse-sorted list counts the strictly
larger elements. -/
lemma indexOf_sorted_ge_eq_countGt : ∀ {l : List ℚ}, l.Sorted (· ≥ ·) → ∀ {v : ℚ}, v ∈ l →
    l.indexOf v = l.countP (fun w => decide (v < w)) := by
  intro l
  induction l with
  | nil => simp
  | cons a t ih =>
    intro hs v hv
    rw [List.sorted_cons] at hs
    rw [List.indexOf_cons]
    by_cases hav : a = v
    · subst hav
      simp only [beq_self_eq_true, cond_true]
      rw [List.countP_cons]
      have h0 : t.countP (fun w => decide (a < w)) = 0 :=
        List.countP_eq_zero.2 (fun w hw => by simpa using not_lt.2 (hs.1 w hw))
      simp [h0]
    · have hvt : v ∈ t := by
        rcases List.mem_cons.1 hv with rfl | h
        · exact absurd rfl hav
        · exact h
      have hlt : v < a := lt_of_le_of_ne (hs.1 v hvt) (Ne.symm hav)
      rw [show (a == v) = false from beq_eq_false_iff_ne.mpr hav, cond_false]
      rw [List.countP_cons, ih hs.2 hvt]
      simp [hlt]

/-- Every element of a list is strictly below, equal to, or strictly
above `v`. -/
lemma countP_trichotomy (l : List ℚ) (v : ℚ) :
    l.countP (fun w => decide (w < v)) + l.countP (fun w => decide (w = v)) +
      l.countP (fun w => decide (v < w)) = l.length := by
  induction l with
  | nil => simp
  | cons a t ih =>
    simp only [List.countP_cons, List.length_cons]
    rcases lt_trichotomy a v with h | h | h
    · simp [h, not_lt.2 (le_of_lt h), ne_of_lt h]
      omega
    · subst h
      simp
      omega
    · simp [h, not_lt.2 (le_of_lt h), (ne_of_lt h).symm]
      omega

/-- Last occurrence index in a sorted list: the strictly-smaller count
plus the tie-group size, minus one. -/
lemma lastIndexOf_sorted {l : List ℚ} (hs : l.Sorted (· ≤ ·)) {v : ℚ} (hv : v ∈ l) :
    lastIndexOf l v = l.countP (fun w => decide (w < v)) +
      l.countP (fun w => decide (w = v)) - 1 := by
  have hrev : l.reverse.Sorted (· ≥ ·) := by
    rw [List.Sorted, List.pairwise_reverse]
    exact hs
  have hvrev : v ∈ l.reverse := List.mem_reverse.2 hv
  have h1 : l.reverse.indexOf v = l.reverse.countP (fun w => decide (v < w)) :=
    indexOf_sorted_ge_eq_countGt hrev hvrev
  have h2 : l.reverse.countP (fun w => decide (v < w)) = l.countP (fun w => decide (v < w)) :=
    List.countP_reverse _ _
  have htr := countP_trichotomy l v
  have hcEq : 0 < l.countP (fun w => decide (w = v)) :=
    List.countP_pos_iff.2 ⟨v, hv, by simp⟩
  unfold lastIndexOf
  rw [h1, h2]
  omega

/-- The Spearman rank lambda computes exactly the mid-rank of every
element of its input. -/
theorem spearmanRankList_eq (arr : List ℚ) :
    spearmanRankList arr = arr.map (fun v => midRank arr v) := by
  unfold spearmanRankList
  refine List.map_congr_left (fun v hv => ?_)
  have hperm : (arr.insertionSort (· ≤ ·)).Perm arr := List.perm_insertionSort _ _
  have hsort : (arr.insertionSort (· ≤ ·)).Sorted (· ≤ ·) := List.sorted_insertionSort _ _
  have hvs : v ∈ arr.insertionSort (· ≤ ·) := hperm.mem_iff.2 hv
  have h1 := indexOf_sorted_eq_countLt hsort hvs
  have h2 := lastIndexOf_sorted hsort hvs
  have hceq : 0 < (arr.insertionSort (· ≤ ·)).countP (fun w => decide (w = v)) :=
    List.countP_pos_iff.2 ⟨v, hvs, by simp⟩
  have e1 : (arr.insertionSort (· ≤ ·)).countP (fun w => decide (w < v)) =
      arr.countP (fun w => decide (w < v)) := hperm.countP_eq _
  have e2 : (arr.insertionSort (· ≤ ·)).countP (fun w => decide (w = v)) =
      arr.countP (fun w => decide (w = v)) := hperm.countP_eq _
  rw [h1, h2, e1, e2, midRank]
  rw [e2] at hceq
  have hcast : ((arr.countP (fun w => decide (w < v)) +
      arr.countP (fun w => decide (w = v)) - 1 : ℕ) : ℚ) =
      (arr.countP (fun w => decide (w < v)) : ℚ) +
        (arr.countP (fun w => decide (w = v)) : ℚ) - 1 := by
    have : 1 ≤ arr.countP (fun w => decide (w < v)) +
        arr.countP (fun w => decide (w = v)) := by omega
    push_cast [Nat.cast_sub this]
    ring
  rw [hcast]
  ring

end StatPage

/-- C3 (amended): the tie-rank loop shared by Mann-Whitney U and
Kruskal-Wallis (whose Dunn post-hoc reuses the Kruskal-Wallis rank sums)
assigns every member of a tie group the arithmetic mean of the occupied
rank positions, and so does the Spearman rank function; the Wilcoxon
signed-rank ranking does NOT (see the counterexample theorem). -/
theorem C3_midrank_tests :
    (∀ l : List ℚ, l.Sorted (· ≤ ·) →
      StatPage.assignTieRanks l = l.map (StatPage.midRank l)) ∧
    (∀ arr : List ℚ, StatPage.spearmanRankList arr = arr.map (StatPage.midRank arr)) := by
  constructor
  · intro l hs
    rw [StatPage.assignTieRanks, StatPage.assignTieRanksFrom_eq l hs 0]
    exact List.map_congr_left (fun w _ => by simp)
  · exact StatPage.spearmanRankList_eq

/-- C3 witness: the amended theorem applied to the concrete sorted tie
list `[1, 1, 2]` and the Spearman input `[3, 1, 3]`. -/
theorem C3_midrank_tests_witness :
    StatPage.assignTieRanks [1, 1, 2] = [1, 1, 2].map (StatPage.midRank [1, 1, 2]) ∧
    StatPage.spearmanRankList [3, 1, 3] = [3, 1, 3].map (StatPage.midRank [3, 1, 3]) :=
  ⟨C3_midrank_tests.1 [1, 1, 2] (by decide), C3_midrank_tests.2 [3, 1, 3]⟩

/-- C3 counterexample: for the non-zero differences `[1, -1, 2]` the
Wilcoxon ranking assigns the two tied absolute differences the
sequential ranks 1 and 2, not the mid-rank 3/2 each, so the claim that
every rank-based test mid-ranks ties is false on the code (here the
observable test statistic differs too: W = min(1+3, 2) = 2 under the
code ranking versus 3/2 under mid-ranking). -/
theorem C3_wilcoxon_sequential_ranks :
    (StatPage.wilcoxonRanks [1, -1, 2]).map (fun r => r.2) = [1, 2, 3] ∧
    [1, -1, 2].map (fun d => StatPage.midRank ([1, -1, 2].map (fun x => |x|)) |d|) =
      [3/2, 3/2, 3] ∧
    ¬ ((1 : ℚ) = 3/2) := by
  refine ⟨?_, ?_, by norm_num⟩
  · simp [StatPage.wilcoxonRanks, List.insertionSort, List.orderedInsert, List.enum,
      List.enumFrom]
    norm_num
  · simp [StatPage.midRank, List.countP, List.countP.go]
    norm_num

/-- C4: unmet sample-size preconditions yield `null` (`none`), never a
statistic: the paired t-test for unequal lengths or fewer than 3 pairs,
the Wilcoxon signed-rank when fewer than 3 non-zero differences remain
after dropping zero differences, and the 4PL fitter below 4 points.
(The embedded functions are total, mirroring that the source never
throws on these inputs.) -/
theorem C4_insufficient_data_null (env : Env) (a b x y : List ℚ)
    (fixTop fixBottom : Option ℚ) (rout : Bool) :
    (a.length ≠ b.length ∨ a.length < 3 → StatPage.pairedTTest env a b = none) ∧
    (((a.zipWith (fun u w => u - w) b).filter (fun d => decide (d ≠ 0))).length < 3 →
      StatPage.wilcoxonSignedRank env a b = none) ∧
    (x.length < 4 ∨ y.length < 4 →
      StatPage.fit4PL env x y fixTop fixBottom rout = none) := by
  refine ⟨fun h => ?_, fun h => ?_, fun h => ?_⟩
  · simp only [StatPage.pairedTTest]
    rw [if_pos h]
  · by_cases h0 : a.length ≠ b.length ∨ a.length < 3
    · simp only [StatPage.wilcoxonSignedRank]
      rw [if_pos h0]
    · simp only [StatPage.wilcoxonSignedRank]
      rw [if_neg h0, if_pos h]
  · simp only [StatPage.fit4PL]
    rw [if_pos h]

/-- C4 witness: the three guards at concrete inputs — a 3-vs-2 paired
input, a paired input whose differences are all zero, and a 3-point 4PL
input. -/
theorem C4_insufficient_data_null_witness :
    StatPage.pairedTTest env₀ [1, 2, 3] [1, 2] = none ∧
    StatPage.wilcoxonSignedRank env₀ [1, 2, 3] [1, 2, 3] = none ∧
    StatPage.fit4PL env₀ [1, 2, 3] [1, 2, 3] none none false = none := by
  refine ⟨(C4_insufficient_data_null env₀ [1, 2, 3] [1, 2] [] [] none none false).1
      (by decide),
    (C4_insufficient_data_null env₀ [1, 2, 3] [1, 2, 3] [] [] none none false).2.1 ?_,
    (C4_insufficient_data_null env₀ [] [] [1, 2, 3] [1, 2, 3] none none false).2.2
      (by decide)⟩
  simp

/-- C1: Scenario 1.  With the Control and Drug groups of the spec, no
transform, a mapped response column, continuous data, independence set
to independent, and the normality diagnostic holding (the pooled
Shapiro-Wilk p above the 0.05 threshold, exactly the comparison
`decision` performs — the p itself is produced upstream by
floating-point special functions), the decision engine selects the
Welch t-test, and the group means are 1 and 1.2775. -/
theorem C1_scenario1_welch (env : Env) (d : StatPage.Diagnostics)
    (hnormal : 1/20 < d.normalP) :
    StatPage.decision (some d)
      [("Control", (StatPage.applyTransform env [1, 1.05, 0.95, 1] .none).vals),
       ("Drug", (StatPage.applyTransform env [1.3, 1.28, 1.35, 1.18] .none).vals)]
      .continuous .independent false true = some ⟨.welchT⟩ ∧
    SimpleStats.mean (StatPage.applyTransform env [1, 1.05, 0.95, 1] .none).vals = 1 ∧
    SimpleStats.mean (StatPage.applyTransform env [1.3, 1.28, 1.35, 1.18] .none).vals
      = 1.2775 := by
  refine ⟨?_, ?_, ?_⟩
  · simp [StatPage.decision, StatPage.applyTransform, hnormal]
    intro h
    rw [one_div] at hnormal
    exact absurd hnormal (not_lt.2 h)
  · norm_num [StatPage.applyTransform, SimpleStats.mean]
  · norm_num [StatPage.applyTransform, SimpleStats.mean]

/-- C1 witness: the scenario instantiated with a concrete diagnostics
record whose pooled normality p is 1/2. -/
theorem C1_scenario1_welch_witness :
    (1 : ℚ)/20 < 1/2 ∧
    (StatPage.decision (some ⟨1/2, none, none⟩)
      [("Control", (StatPage.applyTransform env₀ [1, 1.05, 0.95, 1] .none).vals),
       ("Drug", (StatPage.applyTransform env₀ [1.3, 1.28, 1.35, 1.18] .none).vals)]
      .continuous .independent false true = some ⟨.welchT⟩ ∧
    SimpleStats.mean (StatPage.applyTransform env₀ [1, 1.05, 0.95, 1] .none).vals = 1 ∧
    SimpleStats.mean (StatPage.applyTransform env₀ [1.3, 1.28, 1.35, 1.18] .none).vals
      = 1.2775) :=
  ⟨by norm_num, C1_scenario1_welch env₀ ⟨1/2, none, none⟩ (by norm_num)⟩

/-- The descriptive log loop with `allowNonPositiveLog = false` keeps
exactly the positive values (transformed in order) and excludes exactly
the non-positive ones. -/
lemma logLoop_false (f : ℚ → ℚ) (values : List ℚ) :
    StatLib.logLoop f false values =
      ((values.filter (fun v => decide (0 < v))).map f,
        values.filter (fun v => decide (v ≤ 0))) := by
  induction values with
  | nil => simp [StatLib.logLoop]
  | cons v rest ih =>
    by_cases hv : v ≤ 0
    · simp [StatLib.logLoop, ih, hv, not_lt.2 hv, List.filter_cons]
    · simp [StatLib.logLoop, ih, hv, lt_of_not_le hv, List.filter_cons]

/-- C5 (amended): for the log10 and sqrt modes of the page transform,
every value failing the domain check is excluded and counted in the
dropped count, the surviving values are transformed in order with no
substitution, and likewise for the descriptive log2/log10 transforms
with `allowNonPositiveLog = false` (exclusions reported through the
`excluded` list behind the warning).  The arcsin mode is excluded from
this statement: it rescales values above 1 before its domain check (see
the counterexample theorem). -/
theorem C5_domain_exclusion (env : Env) (values : List ℚ) :
    ((StatPage.applyTransform env values .log10).dropped =
        values.countP (fun v => decide (¬ 0 < v)) ∧
      (StatPage.applyTransform env values .log10).vals =
        (values.filter (fun v => decide (0 < v))).map env.log10) ∧
    ((StatPage.applyTransform env values .sqrt).dropped =
        values.countP (fun v => decide (¬ 0 ≤ v)) ∧
      (StatPage.applyTransform env values .sqrt).vals =
        (values.filter (fun v => decide (0 ≤ v))).map env.sqrt) ∧
    ((StatLib.applyTransform env values .log2 false).values =
        (values.filter (fun v => decide (0 < v))).map env.log2 ∧
      (StatLib.applyTransform env values .log2 false).excluded =
        values.filter (fun v => decide (v ≤ 0))) ∧
    ((StatLib.applyTransform env values .log10 false).values =
        (values.filter (fun v => decide (0 < v))).map env.log10 ∧
      (StatLib.applyTransform env values .log10 false).excluded =
        values.filter (fun v => decide (v ≤ 0))) := by
  refine ⟨⟨?_, rfl⟩, ⟨?_, rfl⟩, ?_, ?_⟩
  · simp only [StatPage.applyTransform]
    have h := List.length_eq_countP_add_countP (fun v => decide (0 < v)) values
    have hflt := List.countP_eq_length_filter (fun v => decide (0 < v)) values
    simp only [decide_not, decide_eq_true_eq] at h ⊢
    omega
  · simp only [StatPage.applyTransform]
    have h := List.length_eq_countP_add_countP (fun v => decide (0 ≤ v)) values
    have hflt := List.countP_eq_length_filter (fun v => decide (0 ≤ v)) values
    simp only [decide_not, decide_eq_true_eq] at h ⊢
    omega
  · constructor <;>
      simp [StatLib.applyTransform, StatLib.applyLogTransform, logLoop_false]
  · constructor <;>
      simp [StatLib.applyTransform, StatLib.applyLogTransform, logLoop_false]

/-- C5 counterexample: the input 50 fails the arcsin domain check
`[0, 1]`, yet the arcsin transform reports 0 dropped values and keeps a
silently substituted value — it divides by 100 before the check and
transforms the adjusted value `50/100`. -/
theorem C5_arcsin_silent_adjustment :
    ¬ (0 ≤ (50 : ℚ) ∧ (50 : ℚ) ≤ 1) ∧
    (StatPage.applyTransform env₀ [50] .arcsin).dropped = 0 ∧
    (StatPage.applyTransform env₀ [50] .arcsin).vals =
      [env₀.asin (env₀.sqrt (50 / 100))] := by
  refine ⟨by norm_num, ?_, ?_⟩ <;>
  · simp [StatPage.applyTransform, env₀]
    norm_num

/-- With at least 2 non-empty groups, the pooled observation count of
`leveneTest` is positive. -/
lemma levene_bigN_ne_zero {groups : List (String × List ℚ)}
    (h2 : 2 ≤ (groups.filter (fun g => decide (g.2 ≠ []))).length) :
    ((groups.filter (fun g => decide (g.2 ≠ []))).map (fun g => g.2.length)).sum ≠ 0 := by
  intro hN
  set gk := groups.filter (fun g => decide (g.2 ≠ [])) with hgk
  have hall : ∀ x ∈ gk.map (fun g => g.2.length), x = 0 := by
    rw [List.sum_eq_zero_iff] at hN
    exact hN
  obtain ⟨g, hg⟩ := List.exists_mem_of_length_pos (by omega : 0 < gk.length)
  have hup : g.2.length = 0 := hall _ (List.mem_map_of_mem _ hg)
  have hne : g.2 ≠ [] := by
    have := (List.mem_filter.1 hg).2
    simpa using this
  exact hne (List.eq_nil_of_length_eq_zero hup)

/-- C6: `leveneTest` returns `none` below 2 non-empty groups; with at
least 2 non-empty groups and a within-group denominator of exactly 0 it
returns the sentinel `{f: 0, p: 1}`; and every result it produces has
`p` clamped into `[0, 1]` (its `f` and `p` are rationals of the
embedding, hence finite — no NaN and no exception is representable). -/
theorem C6_levene_guards (env : Env) (groups : List (String × List ℚ)) :
    ((groups.filter (fun g => decide (g.2 ≠ []))).length < 2 →
      StatPage.leveneTest env groups = none) ∧
    (2 ≤ (groups.filter (fun g => decide (g.2 ≠ []))).length →
      StatPage.leveneDenom groups = 0 →
        StatPage.leveneTest env groups = some ⟨0, 1⟩) ∧
    (∀ r, StatPage.leveneTest env groups = some r → 0 ≤ r.p ∧ r.p ≤ 1) := by
  refine ⟨fun h => ?_, fun h2 hd => ?_, fun r hr => ?_⟩
  · simp only [StatPage.leveneTest]
    rw [if_pos (Or.inl h)]
  · simp only [StatPage.leveneTest]
    rw [if_neg (by push_neg; exact ⟨by omega, levene_bigN_ne_zero h2⟩), if_pos hd]
  · simp only [StatPage.leveneTest] at hr
    by_cases h0 : (groups.filter (fun g => decide (g.2 ≠ []))).length < 2 ∨
        ((groups.filter (fun g => decide (g.2 ≠ []))).map (fun g => g.2.length)).sum = 0
    · rw [if_pos h0] at hr
      exact absurd hr (by simp)
    · rw [if_neg h0] at hr
      by_cases hd : StatPage.leveneDenom groups = 0
      · rw [if_pos hd] at hr
        cases hr
        norm_num
      · rw [if_neg hd] at hr
        cases hr
        constructor
        · exact le_max_left 0 _
        · exact max_le (by norm_num) (min_le_left 1 _)

/-- C6 witness: no groups gives `none`; two constant groups (all values
identical within each group) give a zero denominator and the sentinel
`{f: 0, p: 1}`. -/
theorem C6_levene_guards_witness :
    StatPage.leveneTest env₀ [] = none ∧
    StatPage.leveneTest env₀ [("A", [1, 1]), ("B", [2, 2])] = some ⟨0, 1⟩ := by
  have hd : StatPage.leveneDenom [("A", [(1 : ℚ), 1]), ("B", [2, 2])] = 0 := by
    simp [StatPage.leveneDenom, StatPage.leveneZL, StatPage.leveneGroupMean,
      SimpleStats.median, SimpleStats.mean, SimpleStats.quantileSorted,
      List.insertionSort, List.orderedInsert]
  exact ⟨(C6_levene_guards env₀ []).1 (by decide),
    (C6_levene_guards env₀ [("A", [1, 1]), ("B", [2, 2])]).2.1 (by decide) hd⟩

/-- Each Kaplan-Meier step multiplies the running survival by a factor
in `[0, 1]` or leaves it unchanged, so any curve suffix starting from a
nonnegative survival is non-increasing. -/
lemma kmSteps_chain : ∀ (l : List (ℚ × ℕ)) (atRisk : ℤ) (surv t0 : ℚ), 0 ≤ surv →
    List.Chain' (fun a b : ℚ × ℚ => b.2 ≤ a.2)
      ((t0, surv) :: StatPage.kmSteps atRisk surv l) := by
  intro l
  induction l with
  | nil => intro atRisk surv t0 _; simp [StatPage.kmSteps]
  | cons pt rest ih =>
    intro atRisk surv t0 hsurv
    rw [StatPage.kmSteps]
    by_cases hg : pt.2 = 1 ∧ 0 < atRisk
    · rw [if_pos hg]
      have ha1 : (1 : ℚ) ≤ (atRisk : ℚ) := by
        have := hg.2
        exact_mod_cast this
      have hfac0 : (0 : ℚ) ≤ 1 - 1 / (atRisk : ℚ) := by
        rw [sub_nonneg]
        rw [div_le_one (by linarith)]
        exact ha1
      have hfac1 : 1 - 1 / (atRisk : ℚ) ≤ 1 := by
        have : 0 < 1 / (atRisk : ℚ) := by positivity
        linarith
      have hle : surv * (1 - 1 / (atRisk : ℚ)) ≤ surv :=
        mul_le_of_le_one_right hsurv hfac1
      have hpos : 0 ≤ surv * (1 - 1 / (atRisk : ℚ)) := mul_nonneg hsurv hfac0
      rw [List.chain'_cons]
      exact ⟨hle, ih (atRisk - 1) _ pt.1 hpos⟩
    · rw [if_neg hg]
      rw [List.chain'_cons]
      exact ⟨le_refl surv, ih (atRisk - 1) surv pt.1 hsurv⟩

/-- C8: every Kaplan-Meier curve the survival chart builds — sorted by
time, starting from `(0, 1)`, events multiplying the running survival by
`1 − 1/atRisk`, censored observations leaving it unchanged — is
non-increasing in the survival coordinate at every adjacent pair of
points (hence along the whole curve). -/
theorem C8_km_monotone (series : List (ℚ × ℕ)) :
    List.Chain' (fun a b : ℚ × ℚ => b.2 ≤ a.2) (StatPage.kmCurve series) := by
  rw [StatPage.kmCurve]
  exact kmSteps_chain _ _ 1 0 (by norm_num)

/-- C9 (amended): `logRankTest` returns `none` exactly when fewer than 2
NON-EMPTY groups are supplied — the source imposes no requirement that
groups contain events, so any input with at least 2 non-empty groups
produces a chi-square statistic, events or not. -/
theorem C9_logrank_null_iff (env : Env) (groups : List (String × List (ℚ × ℕ))) :
    (StatPage.logRankTest env groups = none ↔
      (groups.filter (fun g => decide (g.2 ≠ []))).length < 2) := by
  simp only [StatPage.logRankTest]
  by_cases h : (groups.filter (fun g => decide (g.2 ≠ []))).length < 2
  · rw [if_pos h]
    exact iff_of_true rfl h
  · rw [if_neg h]
    exact iff_of_false (by simp) h

/-- C9 counterexample: two groups with one censored observation each —
no group contains any event (status 1), so the claim requires `null`,
yet the code produces a (non-null) statistic. -/
theorem C9_all_censored_statistic :
    StatPage.logRankTest env₀ [("A", [(1, 0)]), ("B", [(2, 0)])] ≠ none ∧
    ([("A", [((1 : ℚ), 0)]), ("B", [(2, 0)])].map
      (fun g => g.2.countP (fun r => r.2 == 1))) = [0, 0] := by
  constructor
  · simp only [StatPage.logRankTest]
    rw [if_neg (by decide)]
    simp
  · decide

namespace StatLib

/-- Every record in the `stats` output of `computeGroupStats` comes from
some per-group pass. -/
lemma mem_stats_exists {env : Env} {rows : List RawRow} {options : ComputeOptions}
    {gs : GroupStats} (hgs : gs ∈ (computeGroupStats env rows options).stats) :
    ∃ g, (groupStatsOne env options rows g).1 = some gs := by
  simp only [computeGroupStats] at hgs
  obtain ⟨g, _, hg⟩ := List.mem_filterMap.1 hgs
  exact ⟨g, hg⟩

/-- Invariant of the interquartile-fence fold: the count tracks the
index list, and every recorded index points below `l.length` at a value
strictly outside the fences. -/
lemma iqrFold_spec (l : List ℚ) (lo hi : ℚ) : ∀ (ps : List (ℕ × ℚ)) (acc : IqrFlags),
    (∀ p ∈ ps, p.1 < l.length ∧ p.2 = l.getD p.1 0) →
    acc.count = acc.indices.length →
    (∀ i ∈ acc.indices, i < l.length ∧ (l.getD i 0 < lo ∨ hi < l.getD i 0)) →
    (ps.foldl (iqrStep lo hi) acc).count = (ps.foldl (iqrStep lo hi) acc).indices.length ∧
      ∀ i ∈ (ps.foldl (iqrStep lo hi) acc).indices,
        i < l.length ∧ (l.getD i 0 < lo ∨ hi < l.getD i 0) := by
  intro ps
  induction ps with
  | nil => intro acc _ hc hi0; exact ⟨hc, hi0⟩
  | cons p rest ih =>
    intro acc hps hc hi0
    rw [List.foldl_cons]
    have hp := hps p (List.mem_cons_self _ _)
    have hrest : ∀ q ∈ rest, q.1 < l.length ∧ q.2 = l.getD q.1 0 :=
      fun q hq => hps q (List.mem_cons_of_mem _ hq)
    by_cases h1 : p.2 < lo
    · rw [show iqrStep lo hi acc p =
        ⟨acc.low + 1, acc.high, acc.count + 1, acc.indices ++ [p.1]⟩ from by
          simp [iqrStep, h1]]
      refine ih _ hrest (by simp [hc]) ?_
      intro i hi
      rcases List.mem_append.1 hi with hi | hi
      · exact hi0 i hi
      · have : i = p.1 := by simpa using hi
        subst this
        exact ⟨hp.1, Or.inl (hp.2 ▸ h1)⟩
    · by_cases h2 : hi < p.2
      · rw [show iqrStep lo hi acc p =
          ⟨acc.low, acc.high + 1, acc.count + 1, acc.indices ++ [p.1]⟩ from by
            simp [iqrStep, h1, h2]]
        refine ih _ hrest (by simp [hc]) ?_
        intro i hi2
        rcases List.mem_append.1 hi2 with hi2 | hi2
        · exact hi0 i hi2
        · have : i = p.1 := by simpa using hi2
          subst this
          exact ⟨hp.1, Or.inr (hp.2 ▸ h2)⟩
      · rw [show iqrStep lo hi acc p = acc from by simp [iqrStep, h1, h2]]
        exact ih _ hrest hc hi0

/-- `iqrFlagsOf`: the flag count equals the number of recorded indices,
and every index is a valid position of the sample, at a value strictly
outside the fences. -/
lemma iqrFlagsOf_spec (l : List ℚ) (lo hi : ℚ) :
    (iqrFlagsOf l lo hi).count = (iqrFlagsOf l lo hi).indices.length ∧
    ∀ i ∈ (iqrFlagsOf l lo hi).indices,
      i < l.length ∧ (l.getD i 0 < lo ∨ hi < l.getD i 0) := by
  have hps : ∀ p ∈ l.enum, p.1 < l.length ∧ p.2 = l.getD p.1 0 := by
    intro p hp
    rcases p with ⟨i, v⟩
    have := List.mem_enum hp
    refine ⟨this.1, ?_⟩
    rw [this.2]
    exact (List.getD_eq_getElem l 0 this.1).symm
  exact iqrFold_spec l lo hi l.enum ⟨0, 0, 0, []⟩ hps rfl (by simp)

/-- A successful `computeTci` brackets its centre, with `df = nBio − 1`,
provided the t quantile and the sem are nonnegative. -/
lemma computeTci_inv (env : Env) (m sem : ℚ) (nBio : ℕ) (c : Ci95)
    (hsem : 0 ≤ sem) (htinv : ∀ q, 0 ≤ env.tInv (0.975 : ℚ) q)
    (hc : computeTci env m sem nBio = some c) :
    c.low ≤ m ∧ m ≤ c.high ∧ c.df = nBio - 1 := by
  simp only [computeTci] at hc
  split at hc
  · exact absurd hc (by simp)
  · simp only [Option.some.injEq] at hc
    subst hc
    have ht := htinv ((nBio - 1 : ℕ) : ℚ)
    have hts : 0 ≤ env.tInv (0.975 : ℚ) ((nBio - 1 : ℕ) : ℚ) * sem := mul_nonneg ht hsem
    exact ⟨by simp only; linarith, by simp only; linarith, rfl⟩

/-- `computeTci` only succeeds above one biological replicate. -/
lemma computeTci_some_nBio (env : Env) (m sem : ℚ) (nBio : ℕ)
    (hc : computeTci env m sem nBio ≠ none) : 1 < nBio := by
  simp only [computeTci] at hc
  split at hc
  · exact absurd rfl hc
  · omega

/-- The standard error of the mean, as `computeGroupStats` forms it, is
nonnegative whenever the environment square root sends nonnegative
inputs to nonnegative outputs and inputs at least 1 to positive
outputs. -/
lemma sem_nonneg (env : Env) (v : ℚ) (nBio : ℕ)
    (hsq1 : ∀ q, 0 ≤ q → 0 ≤ env.sqrt q) (hsq2 : ∀ q, 1 ≤ q → 0 < env.sqrt q) :
    0 ≤ env.sqrt (max v 0) / env.sqrt (if nBio = 0 then (1 : ℚ) else (nBio : ℚ)) := by
  have h1 : 0 ≤ env.sqrt (max v 0) := hsq1 _ (le_max_right _ _)
  have h2 : (1 : ℚ) ≤ if nBio = 0 then (1 : ℚ) else (nBio : ℚ) := by
    split
    · exact le_refl 1
    · exact_mod_cast Nat.one_le_iff_ne_zero.2 (by assumption)
  exact div_nonneg h1 (le_of_lt (hsq2 _ h2))

/-- What a successful per-group pass guarantees about its record: the
sample is the sorted transformed sample, the stored multiplier is the
option, the flags are the fence fold over that sample, and the CI (when
present) brackets the mean with `df = nBio − 1`, existing only under
the `t95` method with more than one value and more than one biological
replicate. -/
lemma groupStatsOne_inv (env : Env) (options : ComputeOptions) (rows : List RawRow)
    (group : String) (gs : GroupStats)
    (h : (groupStatsOne env options rows group).1 = some gs) :
    gs.valuesUsed.Sorted (· ≤ ·) ∧
    gs.iqrMultiplier = options.iqrMultiplier ∧
    gs.iqrFlags = iqrFlagsOf gs.valuesUsed
      (SimpleStats.quantileSorted gs.valuesUsed (0.25 : ℚ) -
        gs.iqrMultiplier * (SimpleStats.quantileSorted gs.valuesUsed (0.75 : ℚ) -
          SimpleStats.quantileSorted gs.valuesUsed (0.25 : ℚ)))
      (SimpleStats.quantileSorted gs.valuesUsed (0.75 : ℚ) +
        gs.iqrMultiplier * (SimpleStats.quantileSorted gs.valuesUsed (0.75 : ℚ) -
          SimpleStats.quantileSorted gs.valuesUsed (0.25 : ℚ))) ∧
    ((∀ q, 0 ≤ q → 0 ≤ env.sqrt q) → (∀ q, 1 ≤ q → 0 < env.sqrt q) →
      (∀ q, 0 ≤ env.tInv (0.975 : ℚ) q) →
      ∀ c, gs.ci95 = some c → c.low ≤ gs.mean ∧ gs.mean ≤ c.high ∧ c.df = gs.nBio - 1) ∧
    (gs.ci95 ≠ none → options.ciMethod = .t95 ∧ 1 < gs.valuesUsed.length ∧ 1 < gs.nBio) := by
  simp only [groupStatsOne] at h
  split at h
  · simp at h
  · split at h
    · simp at h
    · simp only [Option.some.injEq] at h
      subst h
      refine ⟨List.sorted_insertionSort _ _, rfl, rfl, ?_, ?_⟩
      · intro hsq1 hsq2 htinv c hc
        simp only at hc ⊢
        split at hc
        · exact computeTci_inv env _ _ _ c (sem_nonneg env _ _ hsq1 hsq2) htinv hc
        · exact absurd hc (by simp)
      · intro hne
        simp only at hne ⊢
        split at hne
        · rename_i hcond
          exact ⟨hcond.1, hcond.2, computeTci_some_nBio env _ _ _ hne⟩
        · exact absurd rfl hne

end StatLib

/-- C7: in every `GroupStats` record `computeGroupStats` produces, a
present `ci95` satisfies `low ≤ mean ≤ high` with `df = nBio − 1`, and
its presence implies `ciMethod = t95`, more than one sample value, and
`nBio > 1` — given that the environment square root is nonnegative on
nonnegative inputs, positive on inputs at least 1 (true of `Math.sqrt`),
and the Student-t 0.975 quantile is nonnegative (true of
`jStat.studentt.inv` at any df). -/
theorem C7_ci_sanity (env : Env) (rows : List StatLib.RawRow)
    (options : StatLib.ComputeOptions) (gs : StatLib.GroupStats) (c : StatLib.Ci95)
    (hsq1 : ∀ q, 0 ≤ q → 0 ≤ env.sqrt q) (hsq2 : ∀ q, 1 ≤ q → 0 < env.sqrt q)
    (htinv : ∀ q, 0 ≤ env.tInv (0.975 : ℚ) q)
    (hgs : gs ∈ (StatLib.computeGroupStats env rows options).stats)
    (hc : gs.ci95 = some c) :
    (c.low ≤ gs.mean ∧ gs.mean ≤ c.high ∧ c.df = gs.nBio - 1) ∧
    options.ciMethod = .t95 ∧ 1 < gs.valuesUsed.length ∧ 1 < gs.nBio := by
  obtain ⟨g, hg⟩ := StatLib.mem_stats_exists hgs
  have hinv := StatLib.groupStatsOne_inv env options rows g gs hg
  exact ⟨hinv.2.2.2.1 hsq1 hsq2 htinv c hc, hinv.2.2.2.2 (by rw [hc]; simp)⟩

/-- Concrete evaluation of the per-group pass on the `rowsW` fixture. -/
lemma groupStatsOne_rowsW : StatLib.groupStatsOne env₀ optsW rowsW "A" = (some gsW, []) := by
  have hrne : rowsW ≠ [] := by decide
  have h13ne : ¬ (([1, 3] : List ℚ) = []) := by decide
  have hfil : rowsW.filter
      (fun r => decide ((if r.group = "" then "Ungrouped" else r.group) = "A")) = rowsW := by
    decide
  have hbio : ((rowsW.map StatLib.bioKey).eraseDups).length = 2 := by decide
  have htech : rowsW.countP (fun r => r.techRep.isSome) = 0 := by decide
  have hvals : rowsW.filterMap (fun r => r.value) = [1, 3] := by decide
  have hsort : (([1, 3] : List ℚ).insertionSort (fun x1 x2 => x1 ≤ x2)) = [1, 3] := by decide
  have hmode : StatLib.multiMode [1, 3] = [] := by decide
  have hsqrt : ∀ q : ℚ, env₀.sqrt q = q := fun _ => rfl
  have hmean : SimpleStats.mean [1, 3] = 2 := by norm_num [SimpleStats.mean]
  have hvar : SimpleStats.sampleVariance [1, 3] = 2 := by
    norm_num [SimpleStats.sampleVariance, SimpleStats.mean]
  have hmed : SimpleStats.median [1, 3] = 2 := by
    norm_num [SimpleStats.median, SimpleStats.quantileSorted, List.insertionSort,
      List.orderedInsert]
  have hq1 : SimpleStats.quantileSorted [1, 3] (1/4 : ℚ) = 1 := by
    have h1 : (⌈(1/2 : ℚ)⌉ : ℤ) = 1 := by rw [Int.ceil_eq_iff]; norm_num
    norm_num [SimpleStats.quantileSorted, h1]
  have hq3 : SimpleStats.quantileSorted [1, 3] (3/4 : ℚ) = 3 := by
    have h2 : (⌈(3/2 : ℚ)⌉ : ℤ) = 2 := by rw [Int.ceil_eq_iff]; norm_num
    norm_num [SimpleStats.quantileSorted, h2]
    decide
  have hflags : StatLib.iqrFlagsOf [1, 3] (-2 : ℚ) (6 : ℚ) = ⟨0, 0, 0, []⟩ := by
    norm_num [StatLib.iqrFlagsOf, StatLib.iqrStep, List.enum, List.enumFrom]
  have hshap : StatLib.approxShapiro env₀ [1, 3] = none := by decide
  have htinv : env₀.tInv (39/40) 1 = 1 := rfl
  have htci : StatLib.computeTci env₀ 2 1 2 = some ⟨1, 3, 1⟩ := by
    norm_num [StatLib.computeTci, htinv]
  simp only [StatLib.groupStatsOne, optsW, hfil, hbio, htech, hvals, hsort, hmode, hmean,
    hvar, hmed, hshap, if_neg hrne]
  norm_num [gsW, StatLib.applyTransform, hsqrt, hvar, hq1, hq3, hflags, htci, hshap,
    hmean, hmed, hmode, hsort]
  exact fun h => absurd h h13ne

/-- The full descriptive pass on the `rowsW` fixture yields exactly the
`gsW` record. -/
lemma computeGroupStats_rowsW :
    (StatLib.computeGroupStats env₀ rowsW optsW).stats = [gsW] := by
  have hgroups : (rowsW.map
      (fun r => if r.group = "" then "Ungrouped" else r.group)).eraseDups = ["A"] := by
    decide
  simp only [StatLib.computeGroupStats, hgroups, List.filterMap_cons, List.filterMap_nil,
    groupStatsOne_rowsW]

/-- C7 witness: the CI sanity theorem applied to the `rowsW` fixture,
whose computed record has `ci95 = some ⟨1, 3, 1⟩` around `mean = 2`. -/
theorem C7_ci_sanity_witness :
    (((⟨1, 3, 1⟩ : StatLib.Ci95).low ≤ gsW.mean ∧
        gsW.mean ≤ (⟨1, 3, 1⟩ : StatLib.Ci95).high ∧
        (⟨1, 3, 1⟩ : StatLib.Ci95).df = gsW.nBio - 1) ∧
      optsW.ciMethod = .t95 ∧ 1 < gsW.valuesUsed.length ∧ 1 < gsW.nBio) :=
  C7_ci_sanity env₀ rowsW optsW gsW ⟨1, 3, 1⟩
    (fun q hq => by rw [show env₀.sqrt q = q from rfl]; exact hq)
    (fun q hq => by rw [show env₀.sqrt q = q from rfl]; linarith)
    (fun q => by rw [show env₀.tInv (0.975 : ℚ) q = 1 from rfl]; norm_num)
    (by rw [computeGroupStats_rowsW]; exact List.mem_cons_self _ _)
    rfl

/-- C10: in every `GroupStats` record `computeGroupStats` produces, the
stored sample `valuesUsed` is sorted, the flag count equals the number
of flagged indices, and every flagged index is a valid position into
`valuesUsed` whose value remains present there and lies strictly below
the lower fence or strictly above the upper fence (fences recomputed
from `valuesUsed` and the stored multiplier). -/
theorem C10_iqr_flags (env : Env) (rows : List StatLib.RawRow)
    (options : StatLib.ComputeOptions) (gs : StatLib.GroupStats)
    (hgs : gs ∈ (StatLib.computeGroupStats env rows options).stats) :
    gs.valuesUsed.Sorted (· ≤ ·) ∧
    gs.iqrMultiplier = options.iqrMultiplier ∧
    gs.iqrFlags.count = gs.iqrFlags.indices.length ∧
    ∀ i ∈ gs.iqrFlags.indices,
      i < gs.valuesUsed.length ∧ gs.valuesUsed.getD i 0 ∈ gs.valuesUsed ∧
      (gs.valuesUsed.getD i 0 <
          SimpleStats.quantileSorted gs.valuesUsed (0.25 : ℚ) -
            gs.iqrMultiplier * (SimpleStats.quantileSorted gs.valuesUsed (0.75 : ℚ) -
              SimpleStats.quantileSorted gs.valuesUsed (0.25 : ℚ)) ∨
        SimpleStats.quantileSorted gs.valuesUsed (0.75 : ℚ) +
            gs.iqrMultiplier * (SimpleStats.quantileSorted gs.valuesUsed (0.75 : ℚ) -
              SimpleStats.quantileSorted gs.valuesUsed (0.25 : ℚ)) <
          gs.valuesUsed.getD i 0) := by
  obtain ⟨g, hg⟩ := StatLib.mem_stats_exists hgs
  have hinv := StatLib.groupStatsOne_inv env options rows g gs hg
  have hspec := StatLib.iqrFlagsOf_spec gs.valuesUsed
    (SimpleStats.quantileSorted gs.valuesUsed (0.25 : ℚ) -
      gs.iqrMultiplier * (SimpleStats.quantileSorted gs.valuesUsed (0.75 : ℚ) -
        SimpleStats.quantileSorted gs.valuesUsed (0.25 : ℚ)))
    (SimpleStats.quantileSorted gs.valuesUsed (0.75 : ℚ) +
      gs.iqrMultiplier * (SimpleStats.quantileSorted gs.valuesUsed (0.75 : ℚ) -
        SimpleStats.quantileSorted gs.valuesUsed (0.25 : ℚ)))
  rw [hinv.2.2.1]
  refine ⟨hinv.1, hinv.2.1, hspec.1, fun i hi => ?_⟩
  have h := hspec.2 i hi
  refine ⟨h.1, ?_, h.2⟩
  rw [List.getD_eq_getElem _ _ h.1]
  exact List.getElem_mem _

/-- Concrete evaluation of the per-group pass on the `rowsW2` fixture
(both values flagged by the shrunken fences). -/
lemma groupStatsOne_rowsW2 :
    StatLib.groupStatsOne env₀ optsW2 rowsW2 "B" = (some gsW2, []) := by
  have hrne : rowsW2 ≠ [] := by decide
  have h13ne : ¬ (([1, 100] : List ℚ) = []) := by decide
  have hfil : rowsW2.filter
      (fun r => decide ((if r.group = "" then "Ungrouped" else r.group) = "B")) = rowsW2 := by
    decide
  have hbio : ((rowsW2.map StatLib.bioKey).eraseDups).length = 2 := by decide
  have htech : rowsW2.countP (fun r => r.techRep.isSome) = 0 := by decide
  have hvals : rowsW2.filterMap (fun r => r.value) = [1, 100] := by decide
  have hsort : (([1, 100] : List ℚ).insertionSort (fun x1 x2 => x1 ≤ x2)) = [1, 100] := by
    decide
  have hmode : StatLib.multiMode [1, 100] = [] := by decide
  have hsqrt : ∀ q : ℚ, env₀.sqrt q = q := fun _ => rfl
  have hmean : SimpleStats.mean [1, 100] = 101/2 := by norm_num [SimpleStats.mean]
  have hvar : SimpleStats.sampleVariance [1, 100] = 9801/2 := by
    norm_num [SimpleStats.sampleVariance, SimpleStats.mean]
  have hmed : SimpleStats.median [1, 100] = 101/2 := by
    norm_num [SimpleStats.median, SimpleStats.quantileSorted, List.insertionSort,
      List.orderedInsert]
  have hq1 : SimpleStats.quantileSorted [1, 100] (1/4 : ℚ) = 1 := by
    have h1 : (⌈(1/2 : ℚ)⌉ : ℤ) = 1 := by rw [Int.ceil_eq_iff]; norm_num
    norm_num [SimpleStats.quantileSorted, h1]
  have hq3 : SimpleStats.quantileSorted [1, 100] (3/4 : ℚ) = 100 := by
    have h2 : (⌈(3/2 : ℚ)⌉ : ℤ) = 2 := by rw [Int.ceil_eq_iff]; norm_num
    norm_num [SimpleStats.quantileSorted, h2]
    decide
  have hflags : StatLib.iqrFlagsOf [1, 100] (101/2 : ℚ) (101/2 : ℚ) =
      ⟨1, 1, 2, [0, 1]⟩ := by
    norm_num [StatLib.iqrFlagsOf, StatLib.iqrStep, List.enum, List.enumFrom]
  have hshap : StatLib.approxShapiro env₀ [1, 100] = none := by decide
  have htinv : env₀.tInv (39/40) 1 = 1 := rfl
  have htci : StatLib.computeTci env₀ (101/2) (9801/4) 2 = some ⟨-9599/4, 10003/4, 1⟩ := by
    norm_num [StatLib.computeTci, htinv]
  have habs : |(101/2 : ℚ)| = 101/2 := by norm_num
  simp only [StatLib.groupStatsOne, optsW2, hfil, hbio, htech, hvals, hsort, hmode, hmean,
    hvar, hmed, hshap, if_neg hrne]
  norm_num [gsW2, StatLib.applyTransform, hsqrt, hvar, hq1, hq3, hflags, htci, hshap,
    hmean, hmed, hmode, hsort, habs]
  exact fun h => absurd h h13ne

/-- The full descriptive pass on the `rowsW2` fixture yields exactly the
`gsW2` record. -/
lemma computeGroupStats_rowsW2 :
    (StatLib.computeGroupStats env₀ rowsW2 optsW2).stats = [gsW2] := by
  have hgroups : (rowsW2.map
      (fun r => if r.group = "" then "Ungrouped" else r.group)).eraseDups = ["B"] := by
    decide
  simp only [StatLib.computeGroupStats, hgroups, List.filterMap_cons, List.filterMap_nil,
    groupStatsOne_rowsW2]

/-- C10 witness: the flags theorem applied to the `rowsW2` fixture, whose
record flags both indices (`indices = [0, 1]`, `count = 2`). -/
theorem C10_iqr_flags_witness :
    gsW2.valuesUsed.Sorted (· ≤ ·) ∧
    gsW2.iqrMultiplier = optsW2.iqrMultiplier ∧
    gsW2.iqrFlags.count = gsW2.iqrFlags.indices.length ∧
    ∀ i ∈ gsW2.iqrFlags.indices,
      i < gsW2.valuesUsed.length ∧ gsW2.valuesUsed.getD i 0 ∈ gsW2.valuesUsed ∧
      (gsW2.valuesUsed.getD i 0 <
          SimpleStats.quantileSorted gsW2.valuesUsed (0.25 : ℚ) -
            gsW2.iqrMultiplier * (SimpleStats.quantileSorted gsW2.valuesUsed (0.75 : ℚ) -
              SimpleStats.quantileSorted gsW2.valuesUsed (0.25 : ℚ)) ∨
        SimpleStats.quantileSorted gsW2.valuesUsed (0.75 : ℚ) +
            gsW2.iqrMultiplier * (SimpleStats.quantileSorted gsW2.valuesUsed (0.75 : ℚ) -
              SimpleStats.quantileSorted gsW2.valuesUsed (0.25 : ℚ)) <
          gsW2.valuesUsed.getD i 0) :=
  C10_iqr_flags env₀ rowsW2 optsW2 gsW2
    (by rw [computeGroupStats_rowsW2]; exact List.mem_cons_self _ _)

end LabHelpr
